import Mathlib

/-!
Verification of the Verilator testbench `elevator_verilator_tb.cpp`.

The testbench `main` is a straight line of eighteen loops around a device under
test (the elevator controller).  It is embedded as a deterministic machine whose
state is the program point plus the variables of `main`; one machine step is one
loop iteration, that is one `dut->eval()` call.  The controller is a parameter
(`Dut`): its internal state, its `eval` and its output ports are arbitrary.
`sim_time` and `door_timer` are `vluint64_t` and wrap modulo 2^64.
-/

namespace Elevator

/-! ## Simulation parameters (source lines 9-13) -/

def NUM_FLOORS : Nat := 4
def FLOOR_BITS : Nat := 2
def CLK_PERIOD : Nat := 10
def DOOR_OPEN_TIME : Nat := 5000

/-- Modulus of `vluint64_t`, the type of `sim_time` and `door_timer`. -/
def U64 : Nat := 18446744073709551616

/-! ## The device under test -/

/-- Input ports of the controller, written by the testbench: the one-bit ports
`clk` and `reset` as booleans, the `NUM_FLOORS`-bit ports as numbers. -/
structure Inputs where
  clk : Bool
  reset : Bool
  internal_requests : Nat
  external_up_requests : Nat
  external_down_requests : Nat
  floor_sensors : Nat
deriving DecidableEq, Repr

/-- Output ports of the controller, read by the testbench: the four one-bit
command outputs as booleans (`true` for 1) and the decoded floor. -/
structure Outputs where
  motor_up : Bool
  motor_down : Bool
  door_open : Bool
  door_close : Bool
  current_floor : Nat
deriving DecidableEq, Repr

/-- A controller behaviour: the state of a freshly constructed model, what
`eval()` does to it given the input ports, and the output ports it shows. -/
structure Dut (σ : Type) where
  init : σ
  eval : Inputs → σ → σ
  out : σ → Outputs

/-! ## The testbench -/

/-- Lines written to standard output. -/
inductive Line where
  | text (s : String)
  | banner (title : String)
  | status (sim_time current_floor : Nat) (motor_up motor_down door_open door_close : Bool)
deriving DecidableEq, Repr

/-- Is the line a Time/Floor/Motor/Door status row (lines 78-80)? -/
def Line.isStatus : Line → Bool
  | .status .. => true
  | _ => false

/-- The loops of `main`, in program order, and the point after the last one. -/
inductive Phase where
  | resetSeq   -- lines 36-40, 10 iterations
  | t1Pulse    -- lines 46-50, 5
  | t1MoveA    -- lines 54-58, 20
  | t1MoveB    -- lines 60-64, 20
  | t1Wait     -- lines 69-82, while
  | t2Pulse    -- lines 87-91, 5
  | t2Move     -- lines 95-99, 20
  | t2Wait     -- lines 104-116, while
  | t3Pulse    -- lines 121-125, 5
  | t3MoveA    -- lines 129-133, 20
  | t3MoveB    -- lines 135-139, 20
  | t3Wait     -- lines 144-156, while
  | t4Pulse    -- lines 161-165, 5
  | t4MoveA    -- lines 169-173, 20
  | t4WaitA    -- lines 178-190, while
  | t4MoveB    -- lines 193-197, 20
  | t4MoveC    -- lines 199-203, 20
  | t4WaitB    -- lines 208-220, while
  | done       -- line 222 onwards
deriving DecidableEq, Repr

/-- Shape of a loop: `for (int i = 0; i < n; i++)`, the `while` wait loop, or
the end of `main`. -/
inductive LoopKind where
  | ticks (n : Nat)
  | wait
  | halt
deriving DecidableEq, Repr

def Phase.kind : Phase → LoopKind
  | .resetSeq => .ticks 10
  | .t1Pulse => .ticks 5
  | .t1MoveA => .ticks 20
  | .t1MoveB => .ticks 20
  | .t1Wait => .wait
  | .t2Pulse => .ticks 5
  | .t2Move => .ticks 20
  | .t2Wait => .wait
  | .t3Pulse => .ticks 5
  | .t3MoveA => .ticks 20
  | .t3MoveB => .ticks 20
  | .t3Wait => .wait
  | .t4Pulse => .ticks 5
  | .t4MoveA => .ticks 20
  | .t4WaitA => .wait
  | .t4MoveB => .ticks 20
  | .t4MoveC => .ticks 20
  | .t4WaitB => .wait
  | .done => .halt

/-- Position of a loop in program order. -/
def Phase.idx : Phase → Nat
  | .resetSeq => 0
  | .t1Pulse => 1
  | .t1MoveA => 2
  | .t1MoveB => 3
  | .t1Wait => 4
  | .t2Pulse => 5
  | .t2Move => 6
  | .t2Wait => 7
  | .t3Pulse => 8
  | .t3MoveA => 9
  | .t3MoveB => 10
  | .t3Wait => 11
  | .t4Pulse => 12
  | .t4MoveA => 13
  | .t4WaitA => 14
  | .t4MoveB => 15
  | .t4MoveC => 16
  | .t4WaitB => 17
  | .done => 18

/-- Variables of `main` at a loop head: which loop, its counter `i`, the input
ports of `*dut`, the rest of `*dut`, `sim_time`, `door_timer` and the text
written so far. -/
structure TB (σ : Type) where
  pc : Phase
  i : Nat
  inp : Inputs
  dut : σ
  sim_time : Nat
  door_timer : Nat
  log : List Line

variable {σ : Type}

/-- Lines 19-33: the state in which `main` reaches the reset loop. -/
def start (d : Dut σ) : TB σ :=
  { pc := .resetSeq
    i := 0
    inp := { clk := false, reset := true, internal_requests := 0,
             external_up_requests := 0, external_down_requests := 0,
             floor_sensors := 0x1 }
    dut := d.init
    sim_time := 0
    door_timer := 0
    log := [.text "=== Elevator Controller Testbench (Verilator) ===",
            .text "Time\tFloor\tMotor\tDoor"] }

/-- The three statements every loop body starts from:
`dut->clk = !dut->clk; dut->eval(); sim_time += CLK_PERIOD / 2;`. -/
def tick (d : Dut σ) (s : TB σ) : TB σ :=
  let inp := { s.inp with clk := !s.inp.clk }
  { s with inp := inp
           dut := d.eval inp s.dut
           sim_time := (s.sim_time + CLK_PERIOD / 2) % U64 }

/-- All of `motor_up == 0 && motor_down == 0 && door_open == 0 && door_close == 0`. -/
def allLow (o : Outputs) : Bool :=
  o.motor_up == false && o.motor_down == false && o.door_open == false && o.door_close == false

/-- Condition of the wait loops (lines 69-70). -/
def waitCond (d : Dut σ) (s : TB σ) : Bool :=
  !(allLow (d.out s.dut)) || decide (s.door_timer < DOOR_OPEN_TIME + 1000)

/-- Condition under which a wait loop writes a status row (line 77). -/
def printCond (clk : Bool) (sim_time : Nat) : Bool :=
  clk && sim_time % (CLK_PERIOD * 10) == 0

/-- Body of the wait loops (lines 71-81). -/
def waitBody (d : Dut σ) (s : TB σ) : TB σ :=
  let inp := { s.inp with clk := !s.inp.clk }
  let dut := d.eval inp s.dut
  let o := d.out dut
  let door_timer := if o.door_open then (s.door_timer + 1) % U64 else s.door_timer
  let sim_time := (s.sim_time + CLK_PERIOD / 2) % U64
  let log :=
    if printCond inp.clk sim_time then
      s.log ++ [.status sim_time o.current_floor o.motor_up o.motor_down o.door_open o.door_close]
    else s.log
  { s with inp := inp, dut := dut, door_timer := door_timer, sim_time := sim_time, log := log }

/-- The wait loop on its own, with a bound on the number of iterations:
`none` when the bound is used up before the condition turns false. -/
def waitLoop (d : Dut σ) : Nat → TB σ → Option (TB σ)
  | 0, s => if waitCond d s then none else some s
  | k + 1, s => if waitCond d s then waitLoop d k (waitBody d s) else some s

/-- Body of the `for` loops, with the `i++` that follows it. -/
def forBody (d : Dut σ) (s : TB σ) : TB σ :=
  { tick d s with i := s.i + 1 }

/-- One iteration of the loop the program is in. -/
def body (d : Dut σ) (s : TB σ) : TB σ :=
  match s.pc.kind with
  | .ticks _ => forBody d s
  | .wait => waitBody d s
  | .halt => s

/-- The condition of the loop the program is in. -/
def loopCond (d : Dut σ) (s : TB σ) : Bool :=
  match s.pc.kind with
  | .ticks n => decide (s.i < n)
  | .wait => waitCond d s
  | .halt => false

/-- The statements between the end of a loop and the head of the next one. -/
def exitLoop (s : TB σ) : TB σ :=
  match s.pc with
  | .resetSeq =>   -- lines 41-45
    { s with pc := .t1Pulse, i := 0
             inp := { s.inp with reset := false, internal_requests := 0x4 }
             log := s.log ++ [.banner "Test 1: Internal request to floor 2"] }
  | .t1Pulse =>    -- line 51
    { s with pc := .t1MoveA, i := 0, inp := { s.inp with internal_requests := 0 } }
  | .t1MoveA =>    -- line 59
    { s with pc := .t1MoveB, i := 0, inp := { s.inp with floor_sensors := 0x2 } }
  | .t1MoveB =>    -- lines 65-68
    { s with pc := .t1Wait, i := 0, inp := { s.inp with floor_sensors := 0x4 }, door_timer := 0 }
  | .t1Wait =>     -- lines 84-86
    { s with pc := .t2Pulse, i := 0
             inp := { s.inp with external_up_requests := 0x2 }
             log := s.log ++ [.banner "Test 2: External up request from floor 1"] }
  | .t2Pulse =>    -- line 92
    { s with pc := .t2Move, i := 0, inp := { s.inp with external_up_requests := 0 } }
  | .t2Move =>     -- lines 100-103
    { s with pc := .t2Wait, i := 0, inp := { s.inp with floor_sensors := 0x2 }, door_timer := 0 }
  | .t2Wait =>     -- lines 118-120
    { s with pc := .t3Pulse, i := 0
             inp := { s.inp with external_down_requests := 0x8 }
             log := s.log ++ [.banner "Test 3: External down request from floor 3"] }
  | .t3Pulse =>    -- line 126
    { s with pc := .t3MoveA, i := 0, inp := { s.inp with external_down_requests := 0 } }
  | .t3MoveA =>    -- line 134
    { s with pc := .t3MoveB, i := 0, inp := { s.inp with floor_sensors := 0x4 } }
  | .t3MoveB =>    -- lines 140-143
    { s with pc := .t3Wait, i := 0, inp := { s.inp with floor_sensors := 0x8 }, door_timer := 0 }
  | .t3Wait =>     -- lines 158-160
    { s with pc := .t4Pulse, i := 0
             inp := { s.inp with internal_requests := 0xA }
             log := s.log ++ [.banner "Test 4: Multiple requests (floor 1 and floor 3)"] }
  | .t4Pulse =>    -- line 166
    { s with pc := .t4MoveA, i := 0, inp := { s.inp with internal_requests := 0 } }
  | .t4MoveA =>    -- lines 174-177
    { s with pc := .t4WaitA, i := 0, inp := { s.inp with floor_sensors := 0x2 }, door_timer := 0 }
  | .t4WaitA =>    -- line 192
    { s with pc := .t4MoveB, i := 0 }
  | .t4MoveB =>    -- line 198
    { s with pc := .t4MoveC, i := 0, inp := { s.inp with floor_sensors := 0x4 } }
  | .t4MoveC =>    -- lines 204-207
    { s with pc := .t4WaitB, i := 0, inp := { s.inp with floor_sensors := 0x8 }, door_timer := 0 }
  | .t4WaitB =>    -- line 222
    { s with pc := .done, i := 0, log := s.log ++ [.banner "=== Test Complete ==="] }
  | .done => s

/-- Control after a loop body: test the loop condition; when it is false leave
the loop, run the statements up to the next loop head and test that loop's
condition in turn.  The first argument bounds the number of loops left. -/
def settle (d : Dut σ) : Nat → TB σ → TB σ
  | 0, s => s
  | k + 1, s =>
    if s.pc = .done then s
    else if loopCond d s then s
    else settle d k (exitLoop s)

/-- One evaluation of the controller: the body of the current loop, then control
moves to the head of the loop that runs the next body.  Nothing happens once
`main` has returned. -/
def step (d : Dut σ) (s : TB σ) : TB σ :=
  if s.pc = .done then s else settle d 19 (body d s)

/-- State of the testbench after `n` steps. -/
def run (d : Dut σ) (n : Nat) : TB σ := (step d)^[n] (start d)

/-- The function `main` as a whole, with a bound on the number of evaluations:
the state in which it returns, `none` when it is still in a loop after `fuel`
evaluations. -/
def main (d : Dut σ) (fuel : Nat) : Option (TB σ) :=
  if (run d fuel).pc = .done then some (run d fuel) else none

/-- The input ports as the controller samples them in evaluation number `n`
(counted from 0), when `main` gets that far. -/
def sampled (d : Dut σ) (n : Nat) : Option Inputs :=
  if (run d n).pc = .done then none
  else some { (run d n).inp with clk := !(run d n).inp.clk }

/-- The output ports after evaluation number `n` (counted from 0). -/
def observed (d : Dut σ) (n : Nat) : Outputs :=
  d.out (run d (n + 1)).dut

/-- The value the floor-sensor port holds while the program is in a loop. -/
def Phase.floor : Phase → Nat
  | .resetSeq | .t1Pulse | .t1MoveA => 0x1
  | .t1MoveB => 0x2
  | .t1Wait | .t2Pulse | .t2Move => 0x4
  | .t2Wait | .t3Pulse | .t3MoveA => 0x2
  | .t3MoveB => 0x4
  | .t3Wait | .t4Pulse | .t4MoveA => 0x8
  | .t4WaitA | .t4MoveB => 0x2
  | .t4MoveC => 0x4
  | .t4WaitB | .done => 0x8

/-- The input ports, the clock apart, while the program is in a loop. -/
def Phase.ports (p : Phase) (clk : Bool) : Inputs :=
  { clk := clk
    reset := decide (p = .resetSeq)
    internal_requests := if p = .t1Pulse then 0x4 else if p = .t4Pulse then 0xA else 0
    external_up_requests := if p = .t2Pulse then 0x2 else 0
    external_down_requests := if p = .t3Pulse then 0x8 else 0
    floor_sensors := p.floor }

/-- The first `n` steps were all evaluations: `main` had not returned before
any of them. -/
def evaluated (d : Dut σ) (n : Nat) : Prop := ∀ k, k < n → (run d k).pc ≠ .done

instance (d : Dut σ) (n : Nat) : Decidable (evaluated d n) := by
  unfold evaluated; infer_instance

/-- Number of the evaluations `e, e+1, ..., e+k-1` after which `door_open` is
asserted. -/
def openCount (d : Dut σ) (e k : Nat) : Nat :=
  (List.range k).countP (fun j => (observed d (e + j)).door_open)

/-- State of a wait loop after `j` iterations of its body, whether or not the
condition would have stopped it earlier. -/
def spin (d : Dut σ) (s : TB σ) (j : Nat) : TB σ := (waitBody d)^[j] s

/-- Number of the first `k` iterations of a wait loop started in `s` after
which `door_open` is asserted. -/
def spinCount (d : Dut σ) (s : TB σ) (k : Nat) : Nat :=
  (List.range k).countP (fun j => (d.out (spin d s (j + 1)).dut).door_open)

/-- Does the testbench drive a request on one of the three request ports? -/
def requesting (inp : Inputs) : Bool :=
  inp.internal_requests != 0 || inp.external_up_requests != 0 ||
    inp.external_down_requests != 0

/-- A controller with a countdown `c`: a request loads `T`, every other
evaluation decrements it; the door is open while `c > 1`, closing when
`c = 1`, and everything is deasserted at `c = 0`.  It never runs the motor. -/
def holdDut (T : Nat) : Dut Nat :=
  { init := 0
    eval := fun inp c => if requesting inp then T else c - 1
    out := fun c =>
      { motor_up := false, motor_down := false, door_open := decide (1 < c),
        door_close := decide (c = 1), current_floor := 0 } }

/-- A controller that never asserts any output. -/
def stuckDut : Dut Unit :=
  { init := ()
    eval := fun _ _ => ()
    out := fun _ =>
      { motor_up := false, motor_down := false, door_open := false,
        door_close := false, current_floor := 0 } }

/-- A controller that counts its evaluations `c`.  `main` makes 55 of them
before the first wait loop; the controller is idle on the first two
evaluations of that loop, holds the door open on the 10000 evaluations that
follow (`c` from 58 to 10057), closes it on the next one and is idle from then
on. -/
def lateDut : Dut Nat :=
  { init := 0
    eval := fun _ c => c + 1
    out := fun c =>
      { motor_up := false, motor_down := false,
        door_open := decide (58 ≤ c ∧ c ≤ 10057),
        door_close := decide (c = 10058), current_floor := 0 } }

/-- The loop that follows a loop in program order. -/
def Phase.next : Phase → Phase
  | .resetSeq => .t1Pulse
  | .t1Pulse => .t1MoveA
  | .t1MoveA => .t1MoveB
  | .t1MoveB => .t1Wait
  | .t1Wait => .t2Pulse
  | .t2Pulse => .t2Move
  | .t2Move => .t2Wait
  | .t2Wait => .t3Pulse
  | .t3Pulse => .t3MoveA
  | .t3MoveA => .t3MoveB
  | .t3MoveB => .t3Wait
  | .t3Wait => .t4Pulse
  | .t4Pulse => .t4MoveA
  | .t4MoveA => .t4WaitA
  | .t4WaitA => .t4MoveB
  | .t4MoveB => .t4MoveC
  | .t4MoveC => .t4WaitB
  | .t4WaitB => .done
  | .done => .done

/-- After `n` evaluations the program is at the head of loop `P`, about to run
its first iteration, and the controller is in state `c`. -/
def Reach (d : Dut σ) (n : Nat) (P : Phase) (c : σ) : Prop :=
  (run d n).pc = P ∧ (run d n).i = 0 ∧ (run d n).dut = c ∧
    (P.kind = .wait → (run d n).door_timer = 0)

/-- The controller `holdDut` with the countdown loaded to 6042: the door then
stays open on 6000 or more evaluations of every wait loop that follows a
request pulse. -/
def demoDut : Dut Nat := holdDut 6042

/-- Is evaluation number `m` a rising clock edge?  The clock is toggled before
every evaluation, so it is one exactly when the controller samples `clk` high. -/
def rising (d : Dut σ) (m : Nat) : Bool :=
  match sampled d m with
  | some x => x.clk
  | none => false

/-- A request stimulus around step `n`: evaluation `n` samples 0 on the port,
the five evaluations `n+1 .. n+5` sample `v`, evaluation `n+6` samples 0 again,
and at least two of the five are rising clock edges. -/
def Pulsed (d : Dut σ) (n : Nat) (port : Inputs → Nat) (v : Nat) : Prop :=
  (sampled d n).map port = some 0 ∧
  (∀ j, j < 5 → (sampled d (n + 1 + j)).map port = some v) ∧
  (sampled d (n + 6)).map port = some 0 ∧
  2 ≤ ((List.range 5).filter (fun j => rising d (n + 1 + j))).length

instance (d : Dut σ) (n : Nat) (port : Inputs → Nat) (v : Nat) : Decidable (Pulsed d n port v) := by
  unfold Pulsed; infer_instance

/-- Modelled from the spec: the controller source is missing; this is the
`ControllerState` of section 3. -/
inductive ControllerState where
  | RESET
  | IDLE
  | MOVING
  | DOOR_OPEN
  | DOOR_CLOSING
deriving DecidableEq, Repr

/-- Modelled from the spec: the controller source is missing; this is the
`Direction` of section 3. -/
inductive Direction where
  | NONE
  | UP
  | DOWN
deriving DecidableEq, Repr

/-- Modelled from the spec: the controller source is missing; this is the
`RequestSet` of section 3, three bit-sets over the floors. -/
structure RequestSet where
  internal : Nat
  external_up : Nat
  external_down : Nat
deriving DecidableEq, Repr

/-- Modelled from the spec: the controller source is missing; these are the
registers of the controller FSM of sections 3 and 4.6 (state, request
registry, direction, committed target, decoded floor, fault flag, `DoorTimer`,
the four command outputs) and the clock level seen last. -/
structure Controller where
  state : ControllerState
  requests : RequestSet
  direction : Direction
  target : Nat
  current_floor : Nat
  fault : Bool
  doorTimer : Nat
  motor_up : Bool
  motor_down : Bool
  door_open : Bool
  door_close : Bool
  clk : Bool
deriving DecidableEq, Repr

/-- Modelled from the spec: the controller source is missing; section 4.1,
the Position Tracker: the floor index of a one-hot sensor value, no floor when
zero or several bits are set. -/
def decodeFloor (sensors : Nat) : Option Nat :=
  (List.range NUM_FLOORS).find? (fun f => sensors == 2 ^ f)

/-- Modelled from the spec: the controller source is missing; section 4.2,
external collaborators raise request bits. -/
def RequestSet.raise (r : RequestSet) (inp : Inputs) : RequestSet :=
  { internal := r.internal ||| inp.internal_requests
    external_up := r.external_up ||| inp.external_up_requests
    external_down := r.external_down ||| inp.external_down_requests }

/-- Modelled from the spec: the controller source is missing; section 4.5,
the serviced floor is cleared in all three request sets. -/
def RequestSet.clear (r : RequestSet) (f : Nat) : RequestSet :=
  { internal := r.internal ^^^ (r.internal &&& 2 ^ f)
    external_up := r.external_up ^^^ (r.external_up &&& 2 ^ f)
    external_down := r.external_down ^^^ (r.external_down &&& 2 ^ f) }

/-- Modelled from the spec: the controller source is missing; section 4.3,
any of the three kinds of call counts as a pull toward a floor. -/
def RequestSet.pendingAt (r : RequestSet) (f : Nat) : Bool :=
  r.internal.testBit f || r.external_up.testBit f || r.external_down.testBit f

/-- Modelled from the spec: the controller source is missing; the floors with
a pending call, in ascending order. -/
def pendingFloors (r : RequestSet) : List Nat :=
  (List.range NUM_FLOORS).filter r.pendingAt

/-- Modelled from the spec: the controller source is missing; the absolute
distance of section 4.3 between two floors. -/
def floorDist (a b : Nat) : Nat := if a ≤ b then b - a else a - b

/-- Modelled from the spec: the controller source is missing; section 4.3,
the nearest floor of an ascending list, the lower one on a tie. -/
def nearest (cur : Nat) : List Nat → Option Nat
  | [] => none
  | f :: fs =>
    match nearest cur fs with
    | none => some f
    | some g => if floorDist cur f ≤ floorDist cur g then some f else some g

/-- Modelled from the spec: the controller source is missing; section 4.3,
the Dispatch Policy `select_target`. -/
def select_target (cur : Nat) (last : Direction) (r : RequestSet) : Option (Nat × Direction) :=
  let ahead :=
    match last with
    | .UP => nearest cur ((pendingFloors r).filter (fun f => decide (cur < f)))
    | .DOWN => nearest cur ((pendingFloors r).filter (fun f => decide (f < cur)))
    | .NONE => none
  match ahead with
  | some t => some (t, last)
  | none =>
    match nearest cur (pendingFloors r) with
    | none => none
    | some t => some (t, if cur < t then .UP else if t < cur then .DOWN else .NONE)

/-- Modelled from the spec: the controller source is missing; section 4.5,
arrival at the target: clear the serviced floor, stop, open the door and start
`DoorTimer` at zero. -/
def enterDoorOpen (c : Controller) : Controller :=
  { c with state := .DOOR_OPEN
           requests := c.requests.clear c.current_floor
           motor_up := false, motor_down := false
           door_open := true, door_close := false
           doorTimer := 0 }

/-- Modelled from the spec: the controller source is missing; one clock tick
of the controller FSM of section 4.6, with the reset of section 4.6, the
Motion Controller of 4.4, the Door Sequencer of 4.5 and the sensor fault policy
of section 7.  `closeTime` is the separately configurable closing duration. -/
def Controller.tick (closeTime : Nat) (inp : Inputs) (c : Controller) : Controller :=
  if inp.reset then
    { c with state := .RESET, requests := ⟨0, 0, 0⟩, direction := .NONE, doorTimer := 0
             motor_up := false, motor_down := false, door_open := false, door_close := false }
  else
    match decodeFloor inp.floor_sensors with
    | none => { c with fault := true, requests := c.requests.raise inp }
    | some f =>
      let c1 := { c with current_floor := f, fault := false, requests := c.requests.raise inp }
      match c1.state with
      | .RESET => { c1 with state := .IDLE }
      | .IDLE =>
        match select_target f c1.direction c1.requests with
        | none => c1
        | some (t, dir) =>
          if t = f then enterDoorOpen c1
          else
            { c1 with state := .MOVING, target := t, direction := dir
                      motor_up := decide (f < t), motor_down := decide (t < f) }
      | .MOVING => if f = c1.target then enterDoorOpen c1 else c1
      | .DOOR_OPEN =>
        if DOOR_OPEN_TIME ≤ c1.doorTimer + 1 then
          { c1 with state := .DOOR_CLOSING, door_open := false, door_close := true, doorTimer := 0 }
        else { c1 with doorTimer := c1.doorTimer + 1 }
      | .DOOR_CLOSING =>
        if closeTime ≤ c1.doorTimer + 1 then
          { c1 with state := .IDLE, door_close := false, doorTimer := 0 }
        else { c1 with doorTimer := c1.doorTimer + 1 }

/-- Modelled from the spec: the controller source is missing; the controller
as a device under test: it starts in `RESET` with all outputs low and makes one
tick on every rising edge of `clk` (section 6). -/
def specController (closeTime : Nat) : Dut Controller :=
  { init :=
      { state := .RESET, requests := ⟨0, 0, 0⟩, direction := .NONE, target := 0
        current_floor := 0, fault := false, doorTimer := 0
        motor_up := false, motor_down := false, door_open := false, door_close := false
        clk := false }
    eval := fun inp c =>
      if inp.clk && !c.clk then { Controller.tick closeTime inp c with clk := inp.clk }
      else { c with clk := inp.clk }
    out := fun c =>
      { motor_up := c.motor_up, motor_down := c.motor_down
        door_open := c.door_open, door_close := c.door_close
        current_floor := c.current_floor } }

/-- The outputs agree with the state of the controller FSM. -/
def Controller.consistent (c : Controller) : Prop :=
  match c.state with
  | .RESET | .IDLE =>
    c.motor_up = false ∧ c.motor_down = false ∧ c.door_open = false ∧ c.door_close = false
  | .MOVING =>
    ¬ (c.motor_up = true ∧ c.motor_down = true) ∧ c.door_open = false ∧ c.door_close = false
  | .DOOR_OPEN =>
    c.motor_up = false ∧ c.motor_down = false ∧ c.door_open = true ∧ c.door_close = false
  | .DOOR_CLOSING =>
    c.motor_up = false ∧ c.motor_down = false ∧ c.door_open = false ∧ c.door_close = true

instance (c : Controller) : Decidable c.consistent := by
  unfold Controller.consistent; split <;> infer_instance

/-! ## Basic facts about the machine -/

theorem settle_of_ne_done (d : Dut σ) (k : Nat) (s : TB σ) (h : s.pc ≠ .done) :
    settle d (k + 2) s = if loopCond d s then s else exitLoop s := by
  rcases s with ⟨pc, i, inp, dut, st, dt, log⟩
  cases pc <;>
    simp [settle, loopCond, exitLoop, Phase.kind, waitCond, DOOR_OPEN_TIME] at h ⊢

theorem step_eq (d : Dut σ) (s : TB σ) (h : s.pc ≠ .done) :
    step d s = if loopCond d (body d s) then body d s else exitLoop (body d s) := by
  have hb : (body d s).pc ≠ .done := by
    rcases s with ⟨pc, i, inp, dut, st, dt, log⟩
    cases pc <;> simp [body, Phase.kind, forBody, tick, waitBody] at h ⊢
  simp only [step, if_neg h]
  exact settle_of_ne_done d 17 _ hb

theorem run_zero (d : Dut σ) : run d 0 = start d := rfl

theorem run_succ (d : Dut σ) (n : Nat) : run d (n + 1) = step d (run d n) := by
  simp only [run, Function.iterate_succ_apply']

theorem run_succ_done (d : Dut σ) (n : Nat) (h : (run d n).pc = .done) :
    run d (n + 1) = run d n := by
  rw [run_succ]; simp [step, h]

theorem run_succ_ticks (d : Dut σ) (n b : Nat) (h : (run d n).pc.kind = .ticks b) :
    run d (n + 1) =
      if (run d n).i + 1 < b then forBody d (run d n)
      else exitLoop (forBody d (run d n)) := by
  have hne : (run d n).pc ≠ .done := by
    intro hd; rw [hd] at h; simp [Phase.kind] at h
  have hb : body d (run d n) = forBody d (run d n) := by
    simp only [body, h]
  have hc : loopCond d (body d (run d n)) = decide ((run d n).i + 1 < b) := by
    rw [hb]; simp only [loopCond, forBody, tick, h]
  rw [run_succ, step_eq d _ hne, hc, hb]
  simp

theorem run_succ_wait (d : Dut σ) (n : Nat) (h : (run d n).pc.kind = .wait) :
    run d (n + 1) =
      if waitCond d (waitBody d (run d n)) then waitBody d (run d n)
      else exitLoop (waitBody d (run d n)) := by
  have hne : (run d n).pc ≠ .done := by
    intro hd; rw [hd] at h; simp [Phase.kind] at h
  have hb : body d (run d n) = waitBody d (run d n) := by
    simp only [body, h]
  have hc : loopCond d (body d (run d n)) = waitCond d (waitBody d (run d n)) := by
    rw [hb]; simp only [loopCond, waitBody, h]
  rw [run_succ, step_eq d _ hne, hc, hb]

/-- In every state of the run the input ports are the ones of the current loop. -/
theorem ports_at (d : Dut σ) (n : Nat) :
    (run d n).inp = (run d n).pc.ports (run d n).inp.clk := by
  induction n with
  | zero => simp [run_zero, start, Phase.ports, Phase.floor]
  | succ n ih =>
    cases hk : (run d n).pc.kind with
    | halt =>
      have hd : (run d n).pc = .done := by
        revert hk; cases (run d n).pc <;> simp [Phase.kind]
      rw [run_succ_done d n hd]; exact ih
    | wait =>
      rw [run_succ_wait d n hk]
      generalize run d n = s at ih hk ⊢
      rcases s with ⟨pc, i, inp, dut, st, dt, log⟩
      simp only at ih
      cases pc <;> simp [Phase.kind] at hk <;>
        (split <;> (rw [ih]; simp [waitBody, exitLoop, Phase.ports, Phase.floor]))
    | ticks b =>
      rw [run_succ_ticks d n b hk]
      generalize run d n = s at ih hk ⊢
      rcases s with ⟨pc, i, inp, dut, st, dt, log⟩
      simp only at ih
      cases pc <;> simp [Phase.kind] at hk <;>
        (split <;> (rw [ih]; simp [forBody, tick, exitLoop, Phase.ports, Phase.floor]))

/-- Case analysis on one step of the machine. -/
theorem step_cases (d : Dut σ) (s : TB σ) (P : TB σ → Prop)
    (hdone : s.pc = .done → P s)
    (hstay : ∀ b, s.pc.kind = .ticks b → s.i + 1 < b → P (forBody d s))
    (hnext : ∀ b, s.pc.kind = .ticks b → ¬ s.i + 1 < b →
      P (exitLoop (forBody d s)))
    (hspin : s.pc.kind = .wait → waitCond d (waitBody d s) = true → P (waitBody d s))
    (hexit : s.pc.kind = .wait → waitCond d (waitBody d s) = false → P (exitLoop (waitBody d s))) :
    P (step d s) := by
  by_cases hd : s.pc = .done
  · simpa [step, hd] using hdone hd
  · rw [step_eq d s hd]
    cases hk : s.pc.kind with
    | halt => exact absurd (by revert hk; cases s.pc <;> simp [Phase.kind]) hd
    | wait =>
      have hb : body d s = waitBody d s := by simp only [body, hk]
      have hc : loopCond d (waitBody d s) = waitCond d (waitBody d s) := by
        simp only [loopCond, waitBody, hk]
      rw [hb, hc]
      cases hw : waitCond d (waitBody d s)
      · simpa using hexit hk hw
      · simpa using hspin hk hw
    | ticks b =>
      have hb : body d s = forBody d s := by simp only [body, hk]
      have hc : loopCond d (forBody d s) = decide (s.i + 1 < b) := by
        simp only [loopCond, forBody, tick, hk]
      rw [hb, hc]
      by_cases hi : s.i + 1 < b
      · simpa [hi] using hstay b hk hi
      · simpa [hi] using hnext b hk hi

/-- The program counter stays or moves to the next loop in program order. -/
theorem idx_succ (d : Dut σ) (n : Nat) :
    (run d (n + 1)).pc = (run d n).pc ∨ (run d (n + 1)).pc.idx = (run d n).pc.idx + 1 := by
  rw [run_succ]
  generalize run d n = s
  apply step_cases d s (fun t => t.pc = s.pc ∨ t.pc.idx = s.pc.idx + 1)
  · intro _; exact Or.inl rfl
  · intro b _ _; exact Or.inl rfl
  · intro b hk _
    right
    rcases s with ⟨pc, i, inp, dut, st, dt, log⟩
    cases pc <;> simp [Phase.kind] at hk <;> simp [exitLoop, forBody, tick, Phase.idx]
  · intro _ _; exact Or.inl rfl
  · intro hk _
    right
    rcases s with ⟨pc, i, inp, dut, st, dt, log⟩
    cases pc <;> simp [Phase.kind] at hk <;> simp [exitLoop, waitBody, Phase.idx]

theorem idx_mono (d : Dut σ) (m k : Nat) :
    (run d m).pc.idx ≤ (run d (m + k)).pc.idx := by
  induction k with
  | zero => exact le_refl _
  | succ k ih =>
    rcases idx_succ d (m + k) with h | h
    · rw [← Nat.add_assoc, h]; exact ih
    · rw [← Nat.add_assoc, h]; omega

theorem idx_injective (p q : Phase) (h : p.idx = q.idx) : p = q := by
  cases p <;> cases q <;> simp [Phase.idx] at h ⊢

/-- A `for` loop is always inside its bound at a loop head. -/
theorem i_lt_bound (d : Dut σ) (n b : Nat) (hk : (run d n).pc.kind = .ticks b) :
    (run d n).i < b := by
  induction n generalizing b with
  | zero => simp [run_zero, start, Phase.kind] at hk ⊢; omega
  | succ n ih =>
    rw [run_succ] at hk ⊢
    revert hk
    have ih2 := ih
    revert ih2
    generalize run d n = s
    intro ih2
    apply step_cases d s (fun t => t.pc.kind = .ticks b → t.i < b)
    · intro _ hk; exact ih2 b hk
    · intro b2 hk hi hk2
      simp only [forBody, tick] at hk2 ⊢
      rw [hk] at hk2; cases hk2; exact hi
    · intro b2 hk _
      rcases s with ⟨pc, i, inp, dut, st, dt, log⟩
      cases pc <;> simp [Phase.kind] at hk <;> simp [exitLoop, forBody, tick, Phase.kind] <;> omega
    · intro hk _ hk2
      simp only [waitBody] at hk2
      rw [hk] at hk2; cases hk2
    · intro hk _
      rcases s with ⟨pc, i, inp, dut, st, dt, log⟩
      cases pc <;> simp [Phase.kind] at hk <;> simp [exitLoop, waitBody, Phase.kind] <;> omega

theorem done_stays (d : Dut σ) (n k : Nat) (h : (run d n).pc = .done) :
    (run d (n + k)).pc = .done := by
  apply idx_injective
  have h1 := idx_mono d n k
  rw [h] at h1
  have h2 : ∀ p : Phase, p.idx ≤ 18 := by intro p; cases p <;> simp [Phase.idx]
  have h3 := h2 (run d (n + k)).pc
  have h4 : Phase.done.idx = 18 := rfl
  rw [h4] at h1 ⊢
  omega

/-- While `main` is running, the clock level and `sim_time` are functions of the
number of evaluations made. -/
theorem clock_at (d : Dut σ) (n : Nat) (h : evaluated d n) :
    (run d n).inp.clk = decide (n % 2 = 1) ∧ (run d n).sim_time = (5 * n) % U64 := by
  induction n with
  | zero => simp [run_zero, start]
  | succ n ih =>
    have ih2 := ih (fun k hk => h k (Nat.lt_succ_of_lt hk))
    have hn := h n (Nat.lt_succ_self n)
    rw [run_succ]
    revert ih2 hn
    generalize run d n = s
    intro ih2 hn
    have key : ∀ t : TB σ, t.inp.clk = (!s.inp.clk) →
        t.sim_time = (s.sim_time + CLK_PERIOD / 2) % U64 →
        t.inp.clk = decide ((n + 1) % 2 = 1) ∧ t.sim_time = (5 * (n + 1)) % U64 := by
      intro t h1 h2
      rw [h1, h2, ih2.1, ih2.2]
      constructor
      · rcases Nat.mod_two_eq_zero_or_one n with h0 | h0 <;>
          simp [h0, Nat.add_mod]
      · simp only [CLK_PERIOD, U64]; omega
    apply step_cases d s (fun t => t.inp.clk = decide ((n + 1) % 2 = 1) ∧
      t.sim_time = (5 * (n + 1)) % U64)
    · intro hd; exact absurd hd hn
    · intro b _ _; exact key _ rfl rfl
    · intro b hk _
      rcases s with ⟨pc, i, inp, dut, st, dt, log⟩
      cases pc <;> simp [Phase.kind] at hk <;> exact key _ rfl rfl
    · intro _ _; exact key _ rfl rfl
    · intro hk _
      rcases s with ⟨pc, i, inp, dut, st, dt, log⟩
      cases pc <;> simp [Phase.kind] at hk <;> exact key _ rfl rfl

/-- The status row is guarded by a condition that needs an even `sim_time`
while the clock is high. -/
theorem print_guard_false (clk : Bool) (t : Nat) (h : clk = true → t % 2 = 1) :
    printCond clk t = false := by
  cases clk
  · rfl
  · have := h rfl
    simp only [printCond, CLK_PERIOD, Bool.true_and, beq_eq_false_iff_ne, ne_eq]
    omega

theorem waitBody_log (d : Dut σ) (s : TB σ) (h : s.inp.clk = false → s.sim_time % 2 = 0) :
    (waitBody d s).log = s.log := by
  have hg := print_guard_false (!s.inp.clk) ((s.sim_time + CLK_PERIOD / 2) % U64) (by
    intro hc
    have := h (by simpa using hc)
    simp only [CLK_PERIOD, U64]; omega)
  simp only [waitBody]
  rw [hg]; simp

/-- In every state: the clock is high exactly when `sim_time` is odd, and no
status row has been written. -/
theorem parity_at (d : Dut σ) (n : Nat) :
    ((run d n).inp.clk = true ↔ (run d n).sim_time % 2 = 1) ∧
      ∀ l ∈ (run d n).log, l.isStatus = false := by
  induction n with
  | zero => simp [run_zero, start, Line.isStatus]
  | succ n ih =>
    rw [run_succ]
    revert ih
    generalize run d n = s
    intro ih
    have hpar : ((!s.inp.clk) = true ↔ ((s.sim_time + CLK_PERIOD / 2) % U64) % 2 = 1) := by
      have := ih.1
      cases hc : s.inp.clk <;> simp [hc] at this ⊢ <;> simp only [CLK_PERIOD, U64] <;> omega
    have hwl : (waitBody d s).log = s.log := waitBody_log d s (by
      intro hc
      have := ih.1
      rw [hc] at this
      simp at this
      exact this)
    apply step_cases d s (fun t => (t.inp.clk = true ↔ t.sim_time % 2 = 1) ∧
      ∀ l ∈ t.log, l.isStatus = false)
    · intro _; exact ih
    · intro b _ _; exact ⟨hpar, ih.2⟩
    · intro b hk _
      rcases s with ⟨pc, i, inp, dut, st, dt, log⟩
      cases pc <;> simp [Phase.kind] at hk <;>
        (refine ⟨hpar, ?_⟩; simp only [exitLoop, forBody, tick]; intro l hl;
         first
          | exact ih.2 l hl
          | (rcases List.mem_append.1 hl with h1 | h1
             · exact ih.2 l h1
             · simp at h1; subst h1; rfl))
    · intro _ _; exact ⟨hpar, by rw [hwl]; exact ih.2⟩
    · intro hk _
      rcases s with ⟨pc, i, inp, dut, st, dt, log⟩
      cases pc <;> simp [Phase.kind] at hk <;>
        (refine ⟨hpar, ?_⟩; simp only [exitLoop]; rw [hwl]; intro l hl;
         first
          | exact ih.2 l hl
          | (rcases List.mem_append.1 hl with h1 | h1
             · exact ih.2 l h1
             · simp at h1; subst h1; rfl))

theorem exitLoop_pc_ne (s : TB σ) (h : s.pc ≠ .done) : (exitLoop s).pc ≠ s.pc := by
  rcases s with ⟨pc, i, inp, dut, st, dt, log⟩
  cases pc <;> simp [exitLoop] at h ⊢

theorem exitLoop_dut (s : TB σ) : (exitLoop s).dut = s.dut := by
  rcases s with ⟨pc, i, inp, dut, st, dt, log⟩
  cases pc <;> simp [exitLoop]

theorem kind_ne_done (p : Phase) (h : p.kind = .wait) : p ≠ .done := by
  intro hd; rw [hd] at h; simp [Phase.kind] at h

/-- A step that stays in a wait loop is one iteration whose condition holds
afterwards. -/
theorem wait_stay (d : Dut σ) (n : Nat) (hk : (run d n).pc.kind = .wait)
    (hs : (run d (n + 1)).pc = (run d n).pc) :
    run d (n + 1) = waitBody d (run d n) ∧ waitCond d (run d (n + 1)) = true := by
  have h := run_succ_wait d n hk
  cases hw : waitCond d (waitBody d (run d n))
  · rw [hw] at h
    simp only [Bool.false_eq_true, if_false] at h
    have h1 := exitLoop_pc_ne (waitBody d (run d n)) (kind_ne_done _ hk)
    rw [← h] at h1
    exact absurd hs h1
  · rw [hw] at h
    simp only [if_true] at h
    rw [h]; exact ⟨rfl, hw⟩

/-- A step that leaves a wait loop is one iteration whose condition fails
afterwards, followed by the statements up to the next loop. -/
theorem wait_leave (d : Dut σ) (n : Nat) (hk : (run d n).pc.kind = .wait)
    (hs : (run d (n + 1)).pc ≠ (run d n).pc) :
    run d (n + 1) = exitLoop (waitBody d (run d n)) ∧
      waitCond d (waitBody d (run d n)) = false := by
  have h := run_succ_wait d n hk
  cases hw : waitCond d (waitBody d (run d n))
  · rw [hw] at h
    simp only [Bool.false_eq_true, if_false] at h
    exact ⟨h, rfl⟩
  · rw [hw] at h
    simp only [if_true] at h
    rw [h] at hs
    exact absurd rfl hs

/-- Every wait loop is entered with `door_timer` equal to 0. -/
theorem wait_entry_timer (d : Dut σ) (n : Nat) (W : Phase) (hW : W.kind = .wait)
    (hpre : (run d n).pc ≠ W) (hin : (run d (n + 1)).pc = W) :
    (run d (n + 1)).door_timer = 0 := by
  rw [run_succ] at hin ⊢
  revert hin hpre
  generalize run d n = s
  intro hpre
  apply step_cases d s (fun t => t.pc = W → t.door_timer = 0)
  · intro _ h; exact absurd h hpre
  · intro b _ _ h; exact absurd h hpre
  · intro b hk _
    rcases s with ⟨pc, i, inp, dut, st, dt, log⟩
    cases pc <;> simp [Phase.kind] at hk <;> simp [exitLoop, forBody, tick] <;>
      (intro h; subst h; simp [Phase.kind] at hW)
  · intro _ _ h; exact absurd h hpre
  · intro hk _
    rcases s with ⟨pc, i, inp, dut, st, dt, log⟩
    cases pc <;> simp [Phase.kind] at hk <;> simp [exitLoop, waitBody] <;>
      (intro h; subst h; simp [Phase.kind] at hW)

theorem openCount_succ (d : Dut σ) (e k : Nat) :
    openCount d e (k + 1) =
      openCount d e k + if (observed d (e + k)).door_open then 1 else 0 := by
  simp only [openCount, List.range_succ, List.countP_append, List.countP_singleton]

theorem openCount_le (d : Dut σ) (e k : Nat) : openCount d e k ≤ k := by
  have := List.countP_le_length (fun j => (observed d (e + j)).door_open) (l := List.range k)
  simpa [openCount] using this

theorem openCount_mono (d : Dut σ) (e k : Nat) : openCount d e k ≤ openCount d e (k + 1) := by
  rw [openCount_succ]; omega

/-- Inside a wait loop `door_timer` never exceeds the number of evaluations of
the loop after which `door_open` was asserted. -/
theorem timer_le_count (d : Dut σ) (W : Phase) (hW : W.kind = .wait) (a k : Nat)
    (hpre : (run d a).pc ≠ W) (hin : ∀ j, j ≤ k → (run d (a + 1 + j)).pc = W) :
    (run d (a + 1 + k)).door_timer ≤ openCount d (a + 1) k := by
  induction k with
  | zero =>
    have := wait_entry_timer d a W hW hpre (hin 0 (le_refl 0))
    simp only [Nat.add_zero] at this ⊢
    omega
  | succ k ih =>
    have ih2 := ih (fun j hj => hin j (Nat.le_succ_of_le hj))
    have h1 := hin k (Nat.le_succ k)
    have h2 := hin (k + 1) (le_refl _)
    have hk : (run d (a + 1 + k)).pc.kind = .wait := by rw [h1]; exact hW
    have hst := (wait_stay d (a + 1 + k) hk (by rw [h1]; exact h2)).1
    have hobs : observed d (a + 1 + k) = d.out (waitBody d (run d (a + 1 + k))).dut := by
      simp only [observed]; rw [hst]
    have hdt : (run d (a + 1 + (k + 1))).door_timer =
        if (observed d (a + 1 + k)).door_open then ((run d (a + 1 + k)).door_timer + 1) % U64
        else (run d (a + 1 + k)).door_timer := by
      rw [hobs]
      show (run d (a + 1 + k + 1)).door_timer = _
      rw [hst]; rfl
    rw [hdt, openCount_succ]
    split
    · have := Nat.mod_le ((run d (a + 1 + k)).door_timer + 1) U64
      omega
    · omega

/-! ## The wait loop on its own -/

theorem spin_succ (d : Dut σ) (s : TB σ) (j : Nat) :
    spin d s (j + 1) = waitBody d (spin d s j) := by
  simp only [spin, Function.iterate_succ_apply']

theorem spin_succ_left (d : Dut σ) (s : TB σ) (j : Nat) :
    spin d s (j + 1) = spin d (waitBody d s) j := by
  simp only [spin, Function.iterate_succ_apply]

theorem waitLoop_none (d : Dut σ) (k : Nat) (s : TB σ)
    (h : ∀ j, j ≤ k → waitCond d (spin d s j) = true) : waitLoop d k s = none := by
  induction k generalizing s with
  | zero =>
    have := h 0 (le_refl 0)
    simp only [spin, Function.iterate_zero, id_eq] at this
    simp [waitLoop, this]
  | succ k ih =>
    have h0 := h 0 (Nat.zero_le _)
    simp only [spin, Function.iterate_zero, id_eq] at h0
    simp only [waitLoop, h0, if_true]
    apply ih
    intro j hj
    rw [← spin_succ_left]
    exact h (j + 1) (Nat.succ_le_succ hj)

theorem waitLoop_some (d : Dut σ) (k : Nat) (s : TB σ) (j : Nat) (hj : j ≤ k)
    (h : waitCond d (spin d s j) = false) : (waitLoop d k s).isSome = true := by
  induction k generalizing s j with
  | zero =>
    have hj0 : j = 0 := by omega
    subst hj0
    simp only [spin, Function.iterate_zero, id_eq] at h
    simp [waitLoop, h]
  | succ k ih =>
    cases hc : waitCond d s
    · simp [waitLoop, hc]
    · simp only [waitLoop, hc, if_true]
      cases j with
      | zero => simp only [spin, Function.iterate_zero, id_eq] at h; rw [h] at hc; cases hc
      | succ j =>
        rw [spin_succ_left] at h
        exact ih (waitBody d s) j (by omega) h

/-- Outputs after the `j`-th iteration of a wait loop started in `s`. -/
theorem spin_timer (d : Dut σ) (s : TB σ) (j : Nat) :
    (spin d s (j + 1)).door_timer =
      if (d.out (spin d s (j + 1)).dut).door_open then ((spin d s j).door_timer + 1) % U64
      else (spin d s j).door_timer := by
  rw [spin_succ]; rfl

theorem allLow_door_open (o : Outputs) (h : allLow o = true) : o.door_open = false := by
  simp [allLow] at h; exact h.1.2

theorem spinCount_succ (d : Dut σ) (s : TB σ) (k : Nat) :
    spinCount d s (k + 1) =
      spinCount d s k + if (d.out (spin d s (k + 1)).dut).door_open then 1 else 0 := by
  simp only [spinCount, List.range_succ, List.countP_append, List.countP_singleton]

theorem spinCount_le (d : Dut σ) (s : TB σ) (k : Nat) : spinCount d s k ≤ k := by
  have := List.countP_le_length (fun j => (d.out (spin d s (j + 1)).dut).door_open)
    (l := List.range k)
  simpa [spinCount] using this

theorem spinCount_mono (d : Dut σ) (s : TB σ) (k m : Nat) :
    spinCount d s k ≤ spinCount d s (k + m) := by
  induction m with
  | zero => exact le_refl _
  | succ m ih => rw [← Nat.add_assoc, spinCount_succ]; omega

/-- In a loop entered with `door_timer = 0` the timer is the number of
iterations that showed `door_open`, modulo 2^64. -/
theorem spin_timer_count (d : Dut σ) (s : TB σ) (h0 : s.door_timer = 0) (k : Nat) :
    (spin d s k).door_timer = spinCount d s k % U64 := by
  induction k with
  | zero => simp [spin, spinCount, h0]
  | succ k ih =>
    rw [spin_timer, spinCount_succ, ih]
    simp only [U64]
    split <;> omega

theorem spinCount_window (d : Dut σ) (s : TB σ) (a m : Nat)
    (hopen : ∀ j, a ≤ j → j < a + m → (d.out (spin d s (j + 1)).dut).door_open = true)
    (j : Nat) (hj : j ≤ m) : j ≤ spinCount d s (a + j) := by
  induction j with
  | zero => exact Nat.zero_le _
  | succ j ih =>
    have ih2 := ih (by omega)
    rw [← Nat.add_assoc, spinCount_succ, hopen (a + j) (by omega) (by omega)]
    simp only [if_true]
    omega

/-! ## Running through a whole loop -/

theorem forBody_iter (d : Dut σ) (s : TB σ) (j : Nat) :
    ((forBody d)^[j] s).pc = s.pc ∧ ((forBody d)^[j] s).i = s.i + j ∧
      ((forBody d)^[j] s).door_timer = s.door_timer ∧
      requesting ((forBody d)^[j] s).inp = requesting s.inp ∧
      ((forBody d)^[j] s).inp.floor_sensors = s.inp.floor_sensors := by
  induction j with
  | zero => simp
  | succ j ih =>
    rw [Function.iterate_succ_apply']
    obtain ⟨h1, h2, h3, h4, h5⟩ := ih
    refine ⟨?_, ?_, ?_, ?_, ?_⟩
    · rw [← h1]; rfl
    · simp only [forBody, tick]; omega
    · rw [← h3]; rfl
    · rw [← h4]; rfl
    · rw [← h5]; rfl

theorem for_run (d : Dut σ) (n b : Nat) (hk : (run d n).pc.kind = .ticks b)
    (hi : (run d n).i = 0) (j : Nat) (hj : j < b) :
    run d (n + j) = (forBody d)^[j] (run d n) := by
  induction j with
  | zero => rfl
  | succ j ih =>
    have ih2 := ih (by omega)
    have hf := forBody_iter d (run d n) j
    have hk2 : (run d (n + j)).pc.kind = .ticks b := by rw [ih2, hf.1]; exact hk
    have hi2 : (run d (n + j)).i = j := by rw [ih2, hf.2.1, hi]; omega
    rw [← Nat.add_assoc, run_succ_ticks d (n + j) b hk2, hi2, if_pos hj, ih2,
      Function.iterate_succ_apply']

theorem for_exit (d : Dut σ) (n b : Nat) (hk : (run d n).pc.kind = .ticks b)
    (hi : (run d n).i = 0) (hb : 0 < b) :
    run d (n + b) = exitLoop ((forBody d)^[b] (run d n)) := by
  obtain ⟨j, rfl⟩ : ∃ j, b = j + 1 := ⟨b - 1, by omega⟩
  have h1 := for_run d n (j + 1) hk hi j (by omega)
  have hf := forBody_iter d (run d n) j
  have hk2 : (run d (n + j)).pc.kind = .ticks (j + 1) := by rw [h1, hf.1]; exact hk
  have hi2 : (run d (n + j)).i = j := by rw [h1, hf.2.1, hi]; omega
  rw [← Nat.add_assoc, run_succ_ticks d (n + j) (j + 1) hk2, hi2, if_neg (by omega), h1,
    Function.iterate_succ_apply']

theorem spin_fields (d : Dut σ) (s : TB σ) (j : Nat) :
    (spin d s j).pc = s.pc ∧ (spin d s j).i = s.i ∧
      requesting (spin d s j).inp = requesting s.inp := by
  induction j with
  | zero => simp [spin]
  | succ j ih =>
    rw [spin_succ]
    obtain ⟨h1, h2, h3⟩ := ih
    exact ⟨by rw [← h1]; rfl, by rw [← h2]; rfl, by rw [← h3]; rfl⟩

theorem wait_run (d : Dut σ) (n k : Nat) (hk : (run d n).pc.kind = .wait)
    (h : ∀ j, j < k → waitCond d (spin d (run d n) (j + 1)) = true) :
    run d (n + k) = spin d (run d n) k := by
  induction k with
  | zero => rfl
  | succ k ih =>
    have ih2 := ih (fun j hj => h j (by omega))
    have hk2 : (run d (n + k)).pc.kind = .wait := by
      rw [ih2, (spin_fields d (run d n) k).1]; exact hk
    rw [← Nat.add_assoc, run_succ_wait d (n + k) hk2, ih2, ← spin_succ, h k (by omega)]
    simp

theorem wait_exit (d : Dut σ) (n k : Nat) (hk : (run d n).pc.kind = .wait)
    (h : ∀ j, j < k → waitCond d (spin d (run d n) (j + 1)) = true)
    (hx : waitCond d (spin d (run d n) (k + 1)) = false) :
    run d (n + (k + 1)) = exitLoop (spin d (run d n) (k + 1)) := by
  have h1 := wait_run d n k hk h
  have hk2 : (run d (n + k)).pc.kind = .wait := by
    rw [h1, (spin_fields d (run d n) k).1]; exact hk
  rw [← Nat.add_assoc, run_succ_wait d (n + k) hk2, h1, ← spin_succ, hx]
  simp

theorem exitLoop_fields (s : TB σ) (h : s.pc ≠ .done) :
    (exitLoop s).pc = s.pc.next ∧ (exitLoop s).i = 0 ∧ (exitLoop s).dut = s.dut ∧
      (s.pc.next.kind = .wait → (exitLoop s).door_timer = 0) := by
  rcases s with ⟨pc, i, inp, dut, st, dt, log⟩
  cases pc <;> simp [exitLoop, Phase.next, Phase.kind] at h ⊢

/-! ## The run of `holdDut` -/

theorem requesting_at (d : Dut σ) (n : Nat) :
    requesting (run d n).inp = requesting ((run d n).pc.ports false) := by
  rw [ports_at d n]; rfl

theorem holdDut_for_dut (T : Nat) (s : TB Nat) (j : Nat) :
    ((forBody (holdDut T))^[j] s).dut =
      if requesting s.inp then (if j = 0 then s.dut else T) else s.dut - j := by
  induction j with
  | zero => simp
  | succ j ih =>
    have hf := (forBody_iter (holdDut T) s j).2.2.2.1
    rw [Function.iterate_succ_apply']
    have : (forBody (holdDut T) ((forBody (holdDut T))^[j] s)).dut =
        if requesting ((forBody (holdDut T))^[j] s).inp then T
        else ((forBody (holdDut T))^[j] s).dut - 1 := rfl
    rw [this, hf, ih]
    cases requesting s.inp <;> simp
    omega

theorem holdDut_spin_dut (T : Nat) (s : TB Nat) (hr : requesting s.inp = false) (j : Nat) :
    (spin (holdDut T) s j).dut = s.dut - j := by
  induction j with
  | zero => simp [spin]
  | succ j ih =>
    have hf := (spin_fields (holdDut T) s j).2.2
    rw [spin_succ]
    have : (waitBody (holdDut T) (spin (holdDut T) s j)).dut =
        if requesting (spin (holdDut T) s j).inp then T
        else (spin (holdDut T) s j).dut - 1 := rfl
    rw [this, hf, ih, hr]
    simp
    omega

theorem holdDut_spin_timer (T : Nat) (s : TB Nat) (hr : requesting s.inp = false)
    (h0 : s.door_timer = 0) (hc : s.dut < U64) (j : Nat) :
    (spin (holdDut T) s j).door_timer = min j (s.dut - 2) := by
  induction j with
  | zero => simp [spin, h0]
  | succ j ih =>
    rw [spin_timer, ih, holdDut_spin_dut T s hr]
    simp only [holdDut, decide_eq_true_eq]
    simp only [U64] at hc ⊢
    split <;> omega

theorem holdDut_waitCond (T : Nat) (s : TB Nat) (hr : requesting s.inp = false)
    (h0 : s.door_timer = 0) (hc : s.dut < U64) (j : Nat) :
    waitCond (holdDut T) (spin (holdDut T) s j) =
      decide (j < s.dut ∨ s.dut < DOOR_OPEN_TIME + 1000 + 2) := by
  simp only [waitCond]
  rw [holdDut_spin_timer T s hr h0 hc, holdDut_spin_dut T s hr]
  simp only [allLow, holdDut, DOOR_OPEN_TIME]
  rw [Bool.eq_iff_iff]
  by_cases h1 : 1 < s.dut - j
  · simp [h1]; omega
  · by_cases h2 : s.dut - j = 1
    · simp [h1, h2]; omega
    · simp [h1, h2]; omega

theorem reach_start (d : Dut σ) : Reach d 0 .resetSeq d.init := by
  simp [Reach, run_zero, start, Phase.kind]

theorem reach_for (T n b c : Nat) (P : Phase) (h : Reach (holdDut T) n P c)
    (hk : P.kind = .ticks b) (hb : 0 < b) :
    Reach (holdDut T) (n + b) P.next (if requesting (P.ports false) then T else c - b) := by
  obtain ⟨h1, h2, h3, _⟩ := h
  have hk2 : (run (holdDut T) n).pc.kind = .ticks b := by rw [h1]; exact hk
  have hf := forBody_iter (holdDut T) (run (holdDut T) n) b
  have hne : ((forBody (holdDut T))^[b] (run (holdDut T) n)).pc ≠ .done := by
    rw [hf.1]; intro hd; rw [hd] at hk2; simp [Phase.kind] at hk2
  have he := exitLoop_fields _ hne
  have hr := requesting_at (holdDut T) n
  rw [h1] at hr
  simp only [Reach]
  rw [for_exit (holdDut T) n b hk2 h2 hb]
  refine ⟨?_, he.2.1, ?_, ?_⟩
  · rw [he.1, hf.1, h1]
  · rw [he.2.2.1, holdDut_for_dut, hr, h3]
    have : b ≠ 0 := by omega
    simp [this]
  · intro hw; apply he.2.2.2; rw [hf.1, h1]; exact hw

theorem reach_wait (T n c : Nat) (W : Phase) (h : Reach (holdDut T) n W c)
    (hk : W.kind = .wait) (hc : DOOR_OPEN_TIME + 1000 + 2 ≤ c) (hc2 : c < U64) :
    Reach (holdDut T) (n + c) W.next 0 ∧
      ∀ j, j < c → (run (holdDut T) (n + j)).pc = W ∧ (run (holdDut T) (n + j)).dut = c - j := by
  obtain ⟨h1, h2, h3, h4⟩ := h
  have h4 := h4 hk
  have hk2 : (run (holdDut T) n).pc.kind = .wait := by rw [h1]; exact hk
  have hr : requesting (run (holdDut T) n).inp = false := by
    rw [requesting_at, h1]
    revert hk; cases W <;> simp [Phase.kind] <;> rfl
  have hwc := holdDut_waitCond T (run (holdDut T) n) hr h4 (by rw [h3]; exact hc2)
  rw [h3] at hwc
  have hin : ∀ j, j < c → run (holdDut T) (n + j) = spin (holdDut T) (run (holdDut T) n) j := by
    intro j hj
    apply wait_run _ _ _ hk2
    intro i hi
    rw [hwc]; simp only [decide_eq_true_eq]; omega
  obtain ⟨k, rfl⟩ : ∃ k, c = k + 1 := ⟨c - 1, by simp only [DOOR_OPEN_TIME] at hc; omega⟩
  have hx : waitCond (holdDut T) (spin (holdDut T) (run (holdDut T) n) (k + 1)) = false := by
    rw [hwc]; simp only [decide_eq_false_iff_not]; omega
  have hout := wait_exit (holdDut T) n k hk2 (by
    intro i hi
    rw [hwc]; simp only [decide_eq_true_eq]; omega) hx
  have hsf := spin_fields (holdDut T) (run (holdDut T) n) (k + 1)
  have hne : (spin (holdDut T) (run (holdDut T) n) (k + 1)).pc ≠ .done := by
    rw [hsf.1]; exact kind_ne_done _ hk2
  have he := exitLoop_fields _ hne
  constructor
  · simp only [Reach]
    rw [hout]
    refine ⟨?_, he.2.1, ?_, ?_⟩
    · rw [he.1, hsf.1, h1]
    · rw [he.2.2.1, holdDut_spin_dut T _ hr, h3]; omega
    · intro hw; apply he.2.2.2; rw [hsf.1, h1]; exact hw
  · intro j hj
    rw [hin j hj]
    exact ⟨by rw [(spin_fields _ _ j).1, h1], by rw [holdDut_spin_dut T _ hr, h3]⟩

/-! ## The run of `demoDut` up to the fourth test -/

theorem demo_at_t1Pulse : Reach demoDut 10 .t1Pulse 0 := by
  have h := reach_for 6042 0 10 0 .resetSeq (reach_start demoDut) rfl (by omega)
  simpa [Phase.next, Phase.ports, requesting] using h

theorem demo_at_t1MoveA : Reach demoDut 15 .t1MoveA 6042 := by
  have h := reach_for 6042 10 5 0 .t1Pulse (demo_at_t1Pulse) rfl (by omega)
  simpa [Phase.next, Phase.ports, requesting] using h

theorem demo_at_t1MoveB : Reach demoDut 35 .t1MoveB 6022 := by
  have h := reach_for 6042 15 20 6042 .t1MoveA (demo_at_t1MoveA) rfl (by omega)
  simpa [Phase.next, Phase.ports, requesting] using h

theorem demo_at_t1Wait : Reach demoDut 55 .t1Wait 6002 := by
  have h := reach_for 6042 35 20 6022 .t1MoveB (demo_at_t1MoveB) rfl (by omega)
  simpa [Phase.next, Phase.ports, requesting] using h

theorem demo_in_t1Wait (j : Nat) (hj : j < 6002) :
    (run demoDut (55 + j)).pc = .t1Wait ∧ (run demoDut (55 + j)).dut = 6002 - j :=
  (reach_wait 6042 55 6002 .t1Wait demo_at_t1Wait rfl (by simp [DOOR_OPEN_TIME])
    (by simp [U64])).2 j hj

theorem demo_at_t2Pulse : Reach demoDut 6057 .t2Pulse 0 := by
  have h := (reach_wait 6042 55 6002 .t1Wait demo_at_t1Wait rfl (by simp [DOOR_OPEN_TIME])
    (by simp [U64])).1
  simpa [Phase.next] using h

theorem demo_at_t2Move : Reach demoDut 6062 .t2Move 6042 := by
  have h := reach_for 6042 6057 5 0 .t2Pulse (demo_at_t2Pulse) rfl (by omega)
  simpa [Phase.next, Phase.ports, requesting] using h

theorem demo_at_t2Wait : Reach demoDut 6082 .t2Wait 6022 := by
  have h := reach_for 6042 6062 20 6042 .t2Move (demo_at_t2Move) rfl (by omega)
  simpa [Phase.next, Phase.ports, requesting] using h

theorem demo_in_t2Wait (j : Nat) (hj : j < 6022) :
    (run demoDut (6082 + j)).pc = .t2Wait ∧ (run demoDut (6082 + j)).dut = 6022 - j :=
  (reach_wait 6042 6082 6022 .t2Wait demo_at_t2Wait rfl (by simp [DOOR_OPEN_TIME])
    (by simp [U64])).2 j hj

theorem demo_at_t3Pulse : Reach demoDut 12104 .t3Pulse 0 := by
  have h := (reach_wait 6042 6082 6022 .t2Wait demo_at_t2Wait rfl (by simp [DOOR_OPEN_TIME])
    (by simp [U64])).1
  simpa [Phase.next] using h

theorem demo_at_t3MoveA : Reach demoDut 12109 .t3MoveA 6042 := by
  have h := reach_for 6042 12104 5 0 .t3Pulse (demo_at_t3Pulse) rfl (by omega)
  simpa [Phase.next, Phase.ports, requesting] using h

theorem demo_at_t3MoveB : Reach demoDut 12129 .t3MoveB 6022 := by
  have h := reach_for 6042 12109 20 6042 .t3MoveA (demo_at_t3MoveA) rfl (by omega)
  simpa [Phase.next, Phase.ports, requesting] using h

theorem demo_at_t3Wait : Reach demoDut 12149 .t3Wait 6002 := by
  have h := reach_for 6042 12129 20 6022 .t3MoveB (demo_at_t3MoveB) rfl (by omega)
  simpa [Phase.next, Phase.ports, requesting] using h

theorem demo_in_t3Wait (j : Nat) (hj : j < 6002) :
    (run demoDut (12149 + j)).pc = .t3Wait ∧ (run demoDut (12149 + j)).dut = 6002 - j :=
  (reach_wait 6042 12149 6002 .t3Wait demo_at_t3Wait rfl (by simp [DOOR_OPEN_TIME])
    (by simp [U64])).2 j hj

theorem demo_at_t4Pulse : Reach demoDut 18151 .t4Pulse 0 := by
  have h := (reach_wait 6042 12149 6002 .t3Wait demo_at_t3Wait rfl (by simp [DOOR_OPEN_TIME])
    (by simp [U64])).1
  simpa [Phase.next] using h

theorem demo_at_t4MoveA : Reach demoDut 18156 .t4MoveA 6042 := by
  have h := reach_for 6042 18151 5 0 .t4Pulse (demo_at_t4Pulse) rfl (by omega)
  simpa [Phase.next, Phase.ports, requesting] using h

theorem demo_at_t4WaitA : Reach demoDut 18176 .t4WaitA 6022 := by
  have h := reach_for 6042 18156 20 6042 .t4MoveA (demo_at_t4MoveA) rfl (by omega)
  simpa [Phase.next, Phase.ports, requesting] using h

/-! ## What the controller samples -/

theorem evaluated_of_ne_done (d : Dut σ) (n : Nat) (h : (run d n).pc ≠ .done) :
    evaluated d n := by
  intro k hk hd
  obtain ⟨m, rfl⟩ : ∃ m, n = k + m := ⟨n - k, by omega⟩
  exact h (done_stays d k m hd)

theorem sampled_eq (d : Dut σ) (n : Nat) (h : (run d n).pc ≠ .done) :
    sampled d n = some ((run d n).pc.ports (!(run d n).inp.clk)) := by
  simp only [sampled, if_neg h]
  congr 1
  conv_lhs => rw [ports_at d n]
  rfl

theorem sampled_clk (d : Dut σ) (n : Nat) (h : (run d n).pc ≠ .done) :
    sampled d n = some ((run d n).pc.ports (decide (n % 2 = 0))) := by
  rw [sampled_eq d n h, (clock_at d n (evaluated_of_ne_done d n h)).1]
  congr 2
  rcases Nat.mod_two_eq_zero_or_one n with h0 | h0 <;> simp [h0]

theorem rising_eq (d : Dut σ) (n : Nat) (h : (run d n).pc ≠ .done) :
    rising d n = decide (n % 2 = 0) := by
  simp only [rising, sampled_clk d n h, Phase.ports]

theorem reset_phase (d : Dut σ) (n : Nat) (h : n < 10) : (run d n).pc = .resetSeq := by
  have := for_run d 0 10 rfl rfl n h
  rw [Nat.zero_add] at this
  rw [this, (forBody_iter d _ n).1]; rfl

theorem after_reset (d : Dut σ) (n : Nat) (h : 10 ≤ n) : (run d n).pc ≠ .resetSeq := by
  have h10 : (run d 10).pc = .t1Pulse := by
    have := for_exit d 0 10 rfl rfl (by omega)
    rw [Nat.zero_add] at this
    rw [this, (exitLoop_fields _ (by rw [(forBody_iter d _ 10).1]; simp [run_zero, start])).1,
      (forBody_iter d _ 10).1]
    rfl
  obtain ⟨k, rfl⟩ : ∃ k, n = 10 + k := ⟨n - 10, by omega⟩
  have := idx_mono d 10 k
  rw [h10] at this
  intro hc
  rw [hc] at this
  simp [Phase.idx] at this

/-- A step that changes the program counter arrives at the first iteration of
the next loop, coming from a state in which `main` was still running. -/
theorem entry_fields (d : Dut σ) (n : Nat) (h : (run d (n + 1)).pc ≠ (run d n).pc) :
    (run d n).pc ≠ .done ∧ (run d (n + 1)).pc = (run d n).pc.next ∧ (run d (n + 1)).i = 0 := by
  rw [run_succ] at h ⊢
  revert h
  generalize run d n = s
  apply step_cases d s (fun t => t.pc ≠ s.pc → s.pc ≠ .done ∧ t.pc = s.pc.next ∧ t.i = 0)
  · intro _ h; exact absurd rfl h
  · intro b _ _ h; exact absurd rfl h
  · intro b hk _ _
    have hne : (forBody d s).pc ≠ .done := by
      intro hd
      have : s.pc = .done := hd
      rw [this] at hk; simp [Phase.kind] at hk
    have he := exitLoop_fields _ hne
    exact ⟨hne, he.1, he.2.1⟩
  · intro _ _ h; exact absurd rfl h
  · intro hk _ _
    have hne : (waitBody d s).pc ≠ .done := kind_ne_done _ hk
    have he := exitLoop_fields _ hne
    exact ⟨hne, he.1, he.2.1⟩

/-- A five-iteration loop entered by step `n` occupies the states
`n+1 .. n+5`; state `n+6` is in the loop after it. -/
theorem pulse_shape (d : Dut σ) (n : Nat) (P : Phase) (hk : P.kind = .ticks 5)
    (hpre : (run d n).pc ≠ P) (hin : (run d (n + 1)).pc = P) :
    (run d n).pc ≠ .done ∧ (run d n).pc.next = P ∧
      (∀ j, j < 5 → (run d (n + 1 + j)).pc = P) ∧ (run d (n + 6)).pc = P.next := by
  have he := entry_fields d n (by rw [hin]; exact fun h => hpre h.symm)
  have hk2 : (run d (n + 1)).pc.kind = .ticks 5 := by rw [hin]; exact hk
  refine ⟨he.1, by rw [← he.2.1, hin], ?_, ?_⟩
  · intro j hj
    rw [for_run d (n + 1) 5 hk2 he.2.2 j hj, (forBody_iter d _ j).1, hin]
  · have := for_exit d (n + 1) 5 hk2 he.2.2 (by omega)
    have hf := (forBody_iter d (run d (n + 1)) 5).1
    show (run d (n + 1 + 5)).pc = _
    rw [this, (exitLoop_fields _ (by
      rw [hf, hin]; intro hd; rw [hd] at hk; simp [Phase.kind] at hk)).1, hf, hin]

theorem rising_count (d : Dut σ) (n : Nat) (h : ∀ j, j < 5 → (run d (n + 1 + j)).pc ≠ .done) :
    2 ≤ ((List.range 5).filter (fun j => rising d (n + 1 + j))).length := by
  have : (List.range 5).filter (fun j => rising d (n + 1 + j)) =
      (List.range 5).filter (fun j => decide ((n + 1 + j) % 2 = 0)) :=
    List.filter_congr (fun j hj => rising_eq d (n + 1 + j) (h j (List.mem_range.1 hj)))
  rw [this]
  rcases Nat.mod_two_eq_zero_or_one n with h0 | h0
  · have e : ∀ j, decide ((n + 1 + j) % 2 = 0) = decide (j % 2 = 1) := by
      intro j; congr 1; apply propext; omega
    simp only [e]; decide
  · have e : ∀ j, decide ((n + 1 + j) % 2 = 0) = decide (j % 2 = 0) := by
      intro j; congr 1; apply propext; omega
    simp only [e]; decide

theorem pulsed_of_shape (d : Dut σ) (n : Nat) (P : Phase) (port : Inputs → Nat) (v : Nat)
    (hk : P.kind = .ticks 5) (hpre : (run d n).pc ≠ P) (hin : (run d (n + 1)).pc = P)
    (h0 : ∀ Q : Phase, Q.next = P → Q ≠ .done → ∀ c, port (Q.ports c) = 0)
    (h1 : ∀ c, port (P.ports c) = v) (h2 : ∀ c, port (P.next.ports c) = 0) :
    Pulsed d n port v := by
  obtain ⟨s1, s2, s3, s4⟩ := pulse_shape d n P hk hpre hin
  have hP : P ≠ .done := by intro hd; rw [hd] at hk; simp [Phase.kind] at hk
  have hN : P.next ≠ .done := by
    revert hk; cases P <;> simp [Phase.kind, Phase.next]
  refine ⟨?_, ?_, ?_, ?_⟩
  · rw [sampled_eq d n s1, Option.map_some', h0 _ s2 s1 _]
  · intro j hj
    have := s3 j hj
    rw [sampled_eq d (n + 1 + j) (by rw [this]; exact hP), Option.map_some', this, h1 _]
  · rw [sampled_eq d (n + 6) (by rw [s4]; exact hN), Option.map_some', s4, h2 _]
  · exact rising_count d n (fun j hj => by rw [s3 j hj]; exact hP)

theorem floor_at (d : Dut σ) (n : Nat) :
    (run d n).inp.floor_sensors = (run d n).pc.floor := by
  rw [ports_at d n]; rfl

/-! ## The controller of the specification under the testbench -/

/-- A property of the controller that holds initially and is kept by `eval`
holds in every state of the run. -/
theorem dut_invariant (d : Dut σ) (I : σ → Prop) (h0 : I d.init)
    (hstep : ∀ inp c, I c → I (d.eval inp c)) (n : Nat) : I (run d n).dut := by
  induction n with
  | zero => exact h0
  | succ n ih =>
    rw [run_succ]
    revert ih
    generalize run d n = s
    intro ih
    apply step_cases d s (fun t => I t.dut)
    · intro _; exact ih
    · intro b _ _; exact hstep _ _ ih
    · intro b _ _; rw [exitLoop_dut]; exact hstep _ _ ih
    · intro _ _; exact hstep _ _ ih
    · intro _ _; rw [exitLoop_dut]; exact hstep _ _ ih

theorem tick_consistent (closeTime : Nat) (inp : Inputs) (c : Controller)
    (h : c.consistent) : (Controller.tick closeTime inp c).consistent := by
  unfold Controller.tick
  split
  · simp [Controller.consistent]
  · split
    · exact h
    · rename_i f _
      rcases c with ⟨st, rq, dir, tg, cf, fl, dt, mu, md, dop, dcl, ck⟩
      cases st
      · simp only [Controller.consistent] at h ⊢
        exact h
      · simp only
        split
        · exact h
        · split
          · simp [enterDoorOpen, Controller.consistent]
          · simp only [Controller.consistent] at h ⊢
            refine ⟨?_, h.2.2.1, h.2.2.2⟩
            simp only [decide_eq_true_eq]
            omega
      · simp only
        split
        · simp [enterDoorOpen, Controller.consistent]
        · exact h
      · simp only
        split
        · simp only [Controller.consistent] at h ⊢
          exact ⟨h.1, h.2.1, trivial, trivial⟩
        · exact h
      · simp only
        split
        · simp only [Controller.consistent] at h ⊢
          exact ⟨h.1, h.2.1, h.2.2.1, trivial⟩
        · exact h

theorem eval_consistent (closeTime : Nat) (inp : Inputs) (c : Controller)
    (h : c.consistent) : ((specController closeTime).eval inp c).consistent := by
  simp only [specController]
  split
  · exact tick_consistent closeTime inp c h
  · exact h

theorem consistent_exclusive (c : Controller) (h : c.consistent) :
    ¬ (c.motor_up = true ∧ c.motor_down = true) ∧ ¬ (c.door_open = true ∧ c.door_close = true) := by
  rcases c with ⟨st, rq, dir, tg, cf, fl, dt, mu, md, dop, dcl, ck⟩
  cases st <;> simp only [Controller.consistent] at h <;>
    (obtain ⟨h1, h2, h3⟩ := h; simp_all)

theorem exitLoop_wait_timer (s : TB σ) (h : s.pc.kind = .wait) :
    (exitLoop s).door_timer = s.door_timer := by
  rcases s with ⟨pc, i, inp, dut, st, dt, log⟩
  cases pc <;> simp [Phase.kind] at h <;> simp [exitLoop]

/-- What holds when a step leaves a wait loop. -/
theorem leave_wait (d : Dut σ) (n : Nat) (hW : (run d n).pc.kind = .wait)
    (hx : (run d (n + 1)).pc ≠ (run d n).pc) :
    allLow (observed d n) = true ∧ DOOR_OPEN_TIME + 1000 ≤ (run d (n + 1)).door_timer ∧
      (run d (n + 1)).pc = (run d n).pc.next := by
  obtain ⟨h1, h2⟩ := wait_leave d n hW hx
  have hne : (waitBody d (run d n)).pc ≠ .done := kind_ne_done _ hW
  have he := exitLoop_fields _ hne
  simp only [waitCond, Bool.or_eq_false_iff, Bool.not_eq_false', decide_eq_false_iff_not,
    Nat.not_lt] at h2
  refine ⟨?_, ?_, ?_⟩
  · simp only [observed]; rw [h1, he.2.2.1]; exact h2.1
  · rw [h1, exitLoop_wait_timer (waitBody d (run d n)) hW]; exact h2.2
  · rw [h1, he.1]; rfl

/-! ## Wait loops of `main` and the loop on its own -/

/-- At the head of a wait loop the loop condition holds. -/
theorem waitCond_at (d : Dut σ) (n : Nat) (hk : (run d n).pc.kind = .wait) :
    waitCond d (run d n) = true := by
  cases n with
  | zero => simp [run_zero, start, Phase.kind] at hk
  | succ n =>
    by_cases hs : (run d (n + 1)).pc = (run d n).pc
    · exact (wait_stay d n (by rw [← hs]; exact hk) hs).2
    · have h0 := wait_entry_timer d n (run d (n + 1)).pc hk (fun h => hs h.symm) rfl
      simp [waitCond, h0, DOOR_OPEN_TIME]

/-- Every state of the run is at the head of a loop whose condition holds, or
`main` has returned: each step is exactly one evaluation. -/
theorem loop_head (d : Dut σ) (n : Nat) :
    (run d n).pc = .done ∨ loopCond d (run d n) = true := by
  cases hk : (run d n).pc.kind with
  | halt => left; revert hk; cases (run d n).pc <;> simp [Phase.kind]
  | wait => right; simp only [loopCond, hk]; exact waitCond_at d n hk
  | ticks b => right; simp only [loopCond, hk, decide_eq_true_eq]; exact i_lt_bound d n b hk

/-- The controller is evaluated on exactly the inputs `sampled` reports. -/
theorem eval_sampled (d : Dut σ) (n : Nat) (h : (run d n).pc ≠ .done) :
    ∃ x, sampled d n = some x ∧ (run d (n + 1)).dut = d.eval x (run d n).dut := by
  refine ⟨{ (run d n).inp with clk := !(run d n).inp.clk }, by simp [sampled, h], ?_⟩
  rw [run_succ]
  revert h
  generalize run d n = s
  intro h
  apply step_cases d s (fun t => t.dut = d.eval { s.inp with clk := !s.inp.clk } s.dut)
  · intro hd; exact absurd hd h
  · intro b _ _; rfl
  · intro b _ _; rw [exitLoop_dut]; rfl
  · intro _ _; rfl
  · intro _ _; rw [exitLoop_dut]; rfl

theorem in_loop_between (d : Dut σ) (m k j : Nat) (W : Phase) (h1 : (run d m).pc = W)
    (h2 : (run d (m + k)).pc = W) (hj : j ≤ k) : (run d (m + j)).pc = W := by
  apply idx_injective
  obtain ⟨e, rfl⟩ : ∃ e, k = j + e := ⟨k - j, by omega⟩
  have a1 := idx_mono d m j
  have a2 := idx_mono d (m + j) e
  rw [Nat.add_assoc, h2] at a2
  rw [h1] at a1
  omega

/-- As long as the program stays in a wait loop its states are the iterates
of the loop body. -/
theorem run_eq_spin (d : Dut σ) (m k : Nat) (hk : (run d m).pc.kind = .wait)
    (h : ∀ j, j ≤ k → (run d (m + j)).pc = (run d m).pc) :
    run d (m + k) = spin d (run d m) k ∧ waitCond d (run d (m + k)) = true := by
  induction k with
  | zero => exact ⟨rfl, waitCond_at d m hk⟩
  | succ k ih =>
    have ih2 := (ih (fun j hj => h j (by omega))).1
    have hk2 : (run d (m + k)).pc.kind = .wait := by rw [h k (by omega)]; exact hk
    have hs := wait_stay d (m + k) hk2 (by
      rw [h k (by omega)]; exact h (k + 1) (le_refl _))
    rw [← Nat.add_assoc]
    exact ⟨by rw [hs.1, ih2, spin_succ], hs.2⟩

/-- If `door_open` is shown only on iterations of the window `a+1 .. a+m`, it
is shown on at most `m` iterations. -/
theorem spinCount_bound (d : Dut σ) (s : TB σ) (a m k : Nat)
    (h : ∀ j, j < k → (d.out (spin d s (j + 1)).dut).door_open = true → a ≤ j ∧ j < a + m) :
    spinCount d s k ≤ min k (a + m) - a := by
  induction k with
  | zero => simp [spinCount]
  | succ k ih =>
    have ih2 := ih (fun j hj => h j (by omega))
    rw [spinCount_succ]
    cases ho : (d.out (spin d s (k + 1)).dut).door_open
    · simp only [Bool.false_eq_true, if_false]; omega
    · have := h k (by omega) ho
      simp only [if_true]; omega

/-- A loop whose controller holds the door open for `m >= 6000` evaluations
after the first `a` and is idle after `a + m + b`, having shown `door_open`
fewer than 2^64 times till then, finds its condition false after iteration
`a + m + b + 1`. -/
theorem spin_settles (d : Dut σ) (s : TB σ) (a m b : Nat) (h0 : s.door_timer = 0)
    (hm : DOOR_OPEN_TIME + 1000 ≤ m) (hcount : spinCount d s (a + m + b) < U64)
    (hopen : ∀ j, a ≤ j → j < a + m → (d.out (spin d s (j + 1)).dut).door_open = true)
    (hidle : ∀ j, a + m + b ≤ j → allLow (d.out (spin d s (j + 1)).dut) = true) :
    waitCond d (spin d s (a + m + b + 1)) = false := by
  have hge := spinCount_window d s a m hopen m (le_refl _)
  have hmono := spinCount_mono d s (a + m) b
  have hlow := hidle (a + m + b) (le_refl _)
  have hno := allLow_door_open _ hlow
  have ht := spin_timer d s (a + m + b)
  rw [hno, spin_timer_count d s h0 (a + m + b), Nat.mod_eq_of_lt hcount] at ht
  simp only [Bool.false_eq_true, if_false] at ht
  simp only [waitCond, hlow, ht, Bool.not_true, Bool.false_or, decide_eq_false_iff_not,
    Nat.not_lt]
  omega

/-! ## The run of `lateDut` up to the first wait loop -/

theorem reach_for_any (d : Dut σ) (n b : Nat) (c : σ) (P : Phase) (h : Reach d n P c)
    (hk : P.kind = .ticks b) (hb : 0 < b) :
    Reach d (n + b) P.next ((forBody d)^[b] (run d n)).dut ∧
      (run d (n + b - 1)).pc = P := by
  obtain ⟨h1, h2, _, _⟩ := h
  have hk2 : (run d n).pc.kind = .ticks b := by rw [h1]; exact hk
  have hf := forBody_iter d (run d n) b
  have hne : ((forBody d)^[b] (run d n)).pc ≠ .done := by
    rw [hf.1]; intro hd; rw [hd] at hk2; simp [Phase.kind] at hk2
  have he := exitLoop_fields _ hne
  constructor
  · simp only [Reach]
    rw [for_exit d n b hk2 h2 hb]
    refine ⟨by rw [he.1, hf.1, h1], he.2.1, he.2.2.1, ?_⟩
    intro hw; apply he.2.2.2; rw [hf.1, h1]; exact hw
  · have : n + b - 1 = n + (b - 1) := by omega
    rw [this, for_run d n b hk2 h2 (b - 1) (by omega), (forBody_iter d _ _).1, h1]

theorem first_wait_entry (d : Dut σ) :
    (run d 54).pc ≠ .t1Wait ∧ (run d 55).pc = .t1Wait := by
  have r1 := (reach_for_any d 0 10 _ .resetSeq (reach_start d) rfl (by omega)).1
  have r2 := (reach_for_any d 10 5 _ .t1Pulse r1 rfl (by omega)).1
  have r3 := (reach_for_any d 15 20 _ .t1MoveA r2 rfl (by omega)).1
  have r4 := reach_for_any d 35 20 _ .t1MoveB r3 rfl (by omega)
  refine ⟨?_, r4.1.1⟩
  have : (run d 54).pc = .t1MoveB := r4.2
  rw [this]; decide

theorem lateDut_for_dut (s : TB Nat) (j : Nat) :
    ((forBody lateDut)^[j] s).dut = s.dut + j := by
  induction j with
  | zero => simp
  | succ j ih =>
    rw [Function.iterate_succ_apply']
    have : (forBody lateDut ((forBody lateDut)^[j] s)).dut =
        ((forBody lateDut)^[j] s).dut + 1 := rfl
    rw [this, ih]; omega

theorem late_at_t1Wait : Reach lateDut 55 .t1Wait 55 := by
  have r1 := (reach_for_any lateDut 0 10 _ .resetSeq (reach_start lateDut) rfl (by omega)).1
  have r2 := (reach_for_any lateDut 10 5 _ .t1Pulse r1 rfl (by omega)).1
  have r3 := (reach_for_any lateDut 15 20 _ .t1MoveA r2 rfl (by omega)).1
  have r4 := (reach_for_any lateDut 35 20 _ .t1MoveB r3 rfl (by omega)).1
  have e : (run lateDut 55).dut = 55 := by
    rw [r4.2.2.1, lateDut_for_dut, r3.2.2.1, lateDut_for_dut, r2.2.2.1, lateDut_for_dut,
      r1.2.2.1, lateDut_for_dut]
    rfl
  exact ⟨r4.1, r4.2.1, e, r4.2.2.2⟩

theorem lateDut_spin_dut (s : TB Nat) (j : Nat) : (spin lateDut s j).dut = s.dut + j := by
  induction j with
  | zero => simp [spin]
  | succ j ih => rw [spin_succ]; simp only [waitBody, lateDut] at ih ⊢; omega

/-- Every change of `floor_sensors` doubles or halves the value (one floor up
or down), except the one at the end of loop `t4MoveA`, which goes from 0x8 to
0x2. -/
theorem floor_change (d : Dut σ) (n : Nat)
    (h : (run d (n + 1)).inp.floor_sensors ≠ (run d n).inp.floor_sensors) :
    ((run d (n + 1)).inp.floor_sensors = 2 * (run d n).inp.floor_sensors ∨
        (run d n).inp.floor_sensors = 2 * (run d (n + 1)).inp.floor_sensors) ∨
      ((run d n).pc = .t4MoveA ∧ (run d n).inp.floor_sensors = 0x8 ∧
        (run d (n + 1)).inp.floor_sensors = 0x2) := by
  rw [floor_at, floor_at] at h ⊢
  have hpc : (run d (n + 1)).pc ≠ (run d n).pc := by
    intro hc; rw [hc] at h; exact h rfl
  have he := (entry_fields d n hpc).2.1
  rw [he] at h ⊢
  revert h
  cases (run d n).pc <;> simp [Phase.next, Phase.floor]

theorem stuck_in_first_wait (n : Nat) :
    (run stuckDut n).pc.idx ≤ 4 ∧ (run stuckDut n).door_timer = 0 := by
  induction n with
  | zero => simp [run_zero, start, Phase.idx]
  | succ n ih =>
    rw [run_succ]
    revert ih
    generalize run stuckDut n = s
    intro ih
    apply step_cases stuckDut s (fun t => t.pc.idx ≤ 4 ∧ t.door_timer = 0)
    · intro _; exact ih
    · intro b _ _; exact ih
    · intro b hk _
      rcases s with ⟨pc, i, inp, dut, st, dt, log⟩
      cases pc <;> simp [Phase.kind] at hk <;> simp [Phase.idx] at ih <;>
        simp [exitLoop, forBody, tick, Phase.idx, ih]
    · intro _ _; exact ⟨ih.1, by simp only [waitBody, stuckDut]; simpa using ih.2⟩
    · intro _ hw
      simp only [waitCond, waitBody, stuckDut, ih.2, DOOR_OPEN_TIME] at hw
      simp at hw

/-- Under `stuckDut` the function `main` never returns. -/
theorem main_stuck (fuel : Nat) : main stuckDut fuel = none := by
  have := (stuck_in_first_wait fuel).1
  have hne : (run stuckDut fuel).pc ≠ .done := by
    intro hd; rw [hd] at this; simp [Phase.idx] at this
  simp [main, hne]

/-- Once `main` has returned, more fuel does not change its result. -/
theorem main_mono (d : Dut σ) (fuel k : Nat) (s : TB σ) (h : main d fuel = some s) :
    main d (fuel + k) = some s := by
  have hd : (run d fuel).pc = .done := by
    by_contra hne; simp [main, hne] at h
  have hs : run d fuel = s := by simpa [main, hd] using h
  have hrun : run d (fuel + k) = run d fuel := by
    induction k with
    | zero => rfl
    | succ k ih =>
      rw [← Nat.add_assoc, run_succ_done d (fuel + k) (done_stays d fuel k hd), ih]
  rw [← hs]
  simp [main, hrun, hd]

theorem stuck_evaluated (n : Nat) : evaluated stuckDut n := by
  intro k _ hd
  have := (stuck_in_first_wait k).1
  rw [hd] at this
  simp [Phase.idx] at this

/-! ## The claims -/

/-- C1, as the code has it: when a step leaves one of the five wait loops (so
the next stimulus is applied), the four outputs are deasserted after the
latest evaluation, `door_timer` is at least `DOOR_OPEN_TIME + 1000`, and the
program is at the head of the loop that follows. -/
theorem wait_exit_outputs (d : Dut σ) (n : Nat) (hW : (run d n).pc.kind = .wait)
    (hx : (run d (n + 1)).pc ≠ (run d n).pc) :
    allLow (observed d n) = true ∧ DOOR_OPEN_TIME + 1000 ≤ (run d (n + 1)).door_timer ∧
      (run d (n + 1)).pc = (run d n).pc.next :=
  leave_wait d n hW hx

/-- Witness for C1: under `demoDut` the first wait loop is left by evaluation
number 6056. -/
theorem wait_exit_outputs_witness :
    (run demoDut 6056).pc.kind = .wait ∧ (run demoDut (6056 + 1)).pc ≠ (run demoDut 6056).pc ∧
      allLow (observed demoDut 6056) = true ∧
      DOOR_OPEN_TIME + 1000 ≤ (run demoDut (6056 + 1)).door_timer ∧
      (run demoDut (6056 + 1)).pc = (run demoDut 6056).pc.next := by
  have h1 : (run demoDut 6056).pc = .t1Wait := (demo_in_t1Wait 6001 (by omega)).1
  have h2 : (run demoDut (6056 + 1)).pc = .t2Pulse := demo_at_t2Pulse.1
  have hk : (run demoDut 6056).pc.kind = .wait := by rw [h1]; rfl
  have hx : (run demoDut (6056 + 1)).pc ≠ (run demoDut 6056).pc := by rw [h1, h2]; decide
  exact ⟨hk, hx, wait_exit_outputs demoDut 6056 hk hx⟩

/-- Counterexample to C1 as stated: under `demoDut` the first wait loop is left
by evaluation number 6056 and the second stimulus is applied, although
`door_open` was still asserted two evaluations earlier: the outputs were not
deasserted on each of the last 6000 evaluations. -/
theorem wait_exit_not_settled :
    (run demoDut 6056).pc = .t1Wait ∧ (run demoDut 6057).pc = .t2Pulse ∧
      (run demoDut 6057).inp.external_up_requests = 0x2 ∧
      (observed demoDut 6054).door_open = true ∧
      ¬ (∀ j, j < DOOR_OPEN_TIME + 1000 → allLow (observed demoDut (6056 - j)) = true) := by
  have h1 := demo_in_t1Wait 6001 (by omega)
  have h2 : (run demoDut 6057).pc = .t2Pulse := demo_at_t2Pulse.1
  have h3 := (demo_in_t1Wait 6000 (by omega)).2
  have h4 : (observed demoDut 6054).door_open = true := by
    simp only [observed]
    rw [h3]; rfl
  refine ⟨h1.1, h2, ?_, h4, ?_⟩
  · rw [ports_at, h2]; rfl
  · intro h
    have h5 := allLow_door_open _ (h 2 (by simp [DOOR_OPEN_TIME]))
    rw [h4] at h5
    cases h5

/-- C3: whatever the controller does, the `floor_sensors` value it samples in
any evaluation is one of 0x1, 0x2, 0x4, 0x8, that is `2 ^ f` for a floor
`f < NUM_FLOORS`: never zero and never two bits. -/
theorem floor_sensors_one_hot (d : Dut σ) (n : Nat) (x : Inputs) (h : sampled d n = some x) :
    (x.floor_sensors = 0x1 ∨ x.floor_sensors = 0x2 ∨ x.floor_sensors = 0x4 ∨
        x.floor_sensors = 0x8) ∧
      ∃ f, f < NUM_FLOORS ∧ x.floor_sensors = 2 ^ f := by
  have hne : (run d n).pc ≠ .done := by
    intro hd; simp [sampled, hd] at h
  rw [sampled_eq d n hne] at h
  cases h
  simp only [Phase.ports, NUM_FLOORS]
  cases (run d n).pc <;> simp only [Phase.floor]
  all_goals first
    | exact ⟨by decide, 0, by decide, by decide⟩
    | exact ⟨by decide, 1, by decide, by decide⟩
    | exact ⟨by decide, 2, by decide, by decide⟩
    | exact ⟨by decide, 3, by decide, by decide⟩

/-- Witness for C3: the fourth evaluation under `stuckDut`. -/
theorem floor_sensors_one_hot_witness :
    sampled stuckDut 3 = some ⟨false, true, 0, 0, 0, 0x1⟩ ∧
      ∃ f, f < NUM_FLOORS ∧ (0x1 : Nat) = 2 ^ f :=
  ⟨by decide, (floor_sensors_one_hot stuckDut 3 ⟨false, true, 0, 0, 0, 0x1⟩ (by decide)).2⟩

/-- C4: with the controller of the specification under the testbench, after
every evaluation of the run (and before the first one) `motor_up` and
`motor_down` are not both asserted and `door_open` and `door_close` are not
both asserted, whatever the closing duration. -/
theorem outputs_exclusive (closeTime n : Nat) :
    ¬ (((specController closeTime).out (run (specController closeTime) n).dut).motor_up = true ∧
        ((specController closeTime).out (run (specController closeTime) n).dut).motor_down = true) ∧
      ¬ (((specController closeTime).out (run (specController closeTime) n).dut).door_open = true ∧
        ((specController closeTime).out (run (specController closeTime) n).dut).door_close = true) := by
  have h := dut_invariant (specController closeTime) Controller.consistent
    (by simp [specController, Controller.consistent])
    (eval_consistent closeTime) n
  exact consistent_exclusive _ h

/-- C5: each of the four request stimuli (`internal_requests = 0x4` in the
first test, `external_up_requests = 0x2` in the second,
`external_down_requests = 0x8` in the third, `internal_requests = 0xA` in the
fourth) is sampled on exactly five consecutive evaluations, with 0 sampled on
the port just before and just after, and at least two of the five are rising
clock edges, at whatever step `n` the pulse loop is entered; and no evaluation
samples more than one non-zero request port. -/
theorem request_pulses (d : Dut σ) :
    (∀ n, (run d n).pc ≠ .t1Pulse → (run d (n + 1)).pc = .t1Pulse →
        Pulsed d n Inputs.internal_requests 0x4) ∧
      (∀ n, (run d n).pc ≠ .t2Pulse → (run d (n + 1)).pc = .t2Pulse →
        Pulsed d n Inputs.external_up_requests 0x2) ∧
      (∀ n, (run d n).pc ≠ .t3Pulse → (run d (n + 1)).pc = .t3Pulse →
        Pulsed d n Inputs.external_down_requests 0x8) ∧
      (∀ n, (run d n).pc ≠ .t4Pulse → (run d (n + 1)).pc = .t4Pulse →
        Pulsed d n Inputs.internal_requests 0xA) ∧
      (∀ m x, sampled d m = some x →
        (x.internal_requests = 0 ∧ x.external_up_requests = 0) ∨
        (x.internal_requests = 0 ∧ x.external_down_requests = 0) ∨
        (x.external_up_requests = 0 ∧ x.external_down_requests = 0)) := by
  refine ⟨?_, ?_, ?_, ?_, ?_⟩
  · intro n hpre hin
    apply pulsed_of_shape d n .t1Pulse _ _ rfl hpre hin
    · intro Q hQ _ c; cases Q <;> simp [Phase.next] at hQ; simp [Phase.ports]
    · intro c; simp [Phase.ports]
    · intro c; simp [Phase.ports, Phase.next]
  · intro n hpre hin
    apply pulsed_of_shape d n .t2Pulse _ _ rfl hpre hin
    · intro Q hQ _ c; cases Q <;> simp [Phase.next] at hQ; simp [Phase.ports]
    · intro c; simp [Phase.ports]
    · intro c; simp [Phase.ports, Phase.next]
  · intro n hpre hin
    apply pulsed_of_shape d n .t3Pulse _ _ rfl hpre hin
    · intro Q hQ _ c; cases Q <;> simp [Phase.next] at hQ; simp [Phase.ports]
    · intro c; simp [Phase.ports]
    · intro c; simp [Phase.ports, Phase.next]
  · intro n hpre hin
    apply pulsed_of_shape d n .t4Pulse _ _ rfl hpre hin
    · intro Q hQ _ c; cases Q <;> simp [Phase.next] at hQ; simp [Phase.ports]
    · intro c; simp [Phase.ports]
    · intro c; simp [Phase.ports, Phase.next]
  · intro m x hx
    have hd : (run d m).pc ≠ .done := by
      intro hd; simp [sampled, hd] at hx
    rw [sampled_eq d m hd] at hx
    cases hx
    cases (run d m).pc <;> simp [Phase.ports]

/-- Witness for C5: under `demoDut` the four stimuli start with evaluations
10, 6057, 12104 and 18151. -/
theorem request_pulses_witness :
    Pulsed demoDut 9 Inputs.internal_requests 0x4 ∧
      Pulsed demoDut 6056 Inputs.external_up_requests 0x2 ∧
      Pulsed demoDut 12103 Inputs.external_down_requests 0x8 ∧
      Pulsed demoDut 18150 Inputs.internal_requests 0xA := by
  have a1 : (run demoDut 9).pc ≠ .t1Pulse := by rw [reset_phase demoDut 9 (by omega)]; decide
  have a2 : (run demoDut 6056).pc ≠ .t2Pulse := by
    rw [(demo_in_t1Wait 6001 (by omega)).1]; decide
  have a3 : (run demoDut 12103).pc ≠ .t3Pulse := by
    rw [(demo_in_t2Wait 6021 (by omega)).1]; decide
  have a4 : (run demoDut 18150).pc ≠ .t4Pulse := by
    rw [(demo_in_t3Wait 6001 (by omega)).1]; decide
  exact ⟨(request_pulses demoDut).1 9 a1 demo_at_t1Pulse.1,
    (request_pulses demoDut).2.1 6056 a2 demo_at_t2Pulse.1,
    (request_pulses demoDut).2.2.1 12103 a3 demo_at_t3Pulse.1,
    (request_pulses demoDut).2.2.2.1 18150 a4 demo_at_t4Pulse.1⟩

/-- C6: evaluations 0 to 9 sample `reset` high, no request and floor 0, on
alternating clock edges that start with a rising one (five rising, five
falling); every later evaluation samples `reset` low; evaluation 10 is the
first to sample a request, `internal_requests = 0x4`, with `reset` low and
`floor_sensors` still 0x1. -/
theorem reset_window (d : Dut σ) :
    (∀ n, n < 10 → ∃ x, sampled d n = some x ∧ x.reset = true ∧
        x.internal_requests = 0 ∧ x.external_up_requests = 0 ∧
        x.external_down_requests = 0 ∧ x.floor_sensors = 0x1 ∧
        x.clk = decide (n % 2 = 0)) ∧
      ((List.range 10).filter (rising d)).length = 5 ∧
      rising d 0 = true ∧
      (∀ n x, 10 ≤ n → sampled d n = some x → x.reset = false) ∧
      (∃ x, sampled d 10 = some x ∧ x.reset = false ∧ x.internal_requests = 0x4 ∧
        x.external_up_requests = 0 ∧ x.external_down_requests = 0 ∧
        x.floor_sensors = 0x1) := by
  have hne : ∀ n, n < 10 → (run d n).pc ≠ .done := by
    intro n hn; rw [reset_phase d n hn]; decide
  have h10 : (run d 10).pc = .t1Pulse := by
    have := for_exit d 0 10 rfl rfl (by omega)
    rw [Nat.zero_add] at this
    rw [this, (exitLoop_fields _ (by rw [(forBody_iter d _ 10).1]; simp [run_zero, start])).1,
      (forBody_iter d _ 10).1]
    rfl
  refine ⟨?_, ?_, ?_, ?_, ?_⟩
  · intro n hn
    refine ⟨_, sampled_clk d n (hne n hn), ?_⟩
    rw [reset_phase d n hn]
    simp [Phase.ports, Phase.floor]
  · have : (List.range 10).filter (rising d) =
        (List.range 10).filter (fun n => decide (n % 2 = 0)) :=
      List.filter_congr (fun n hn => rising_eq d n (hne n (List.mem_range.1 hn)))
    rw [this]; rfl
  · rw [rising_eq d 0 (hne 0 (by omega))]; rfl
  · intro n x hn hx
    have hd : (run d n).pc ≠ .done := by
      intro hd; simp [sampled, hd] at hx
    rw [sampled_eq d n hd] at hx
    cases hx
    simp only [Phase.ports, decide_eq_false_iff_not]
    exact after_reset d n hn
  · refine ⟨_, sampled_eq d 10 (by rw [h10]; decide), ?_⟩
    rw [h10]
    simp [Phase.ports, Phase.floor]

/-- C7 fails in Test 4: under `demoDut`, whose first three wait loops
terminate, evaluation 18175 samples `floor_sensors = 0x8 = 2 ^ 3` (floor 3) and
evaluation 18176 samples `floor_sensors = 0x2 = 2 ^ 1` (floor 1): the
assignment of source line 174 moves the indicated floor by two, floor 2 is
never shown on the way down. -/
theorem floor_sensors_jump :
    (run demoDut 18175).pc = .t4MoveA ∧ (run demoDut 18176).pc = .t4WaitA ∧
      sampled demoDut 18175 = some (Phase.t4MoveA.ports false) ∧
      sampled demoDut 18176 = some (Phase.t4WaitA.ports true) ∧
      (Phase.t4MoveA.ports false).floor_sensors = 2 ^ 3 ∧
      (Phase.t4WaitA.ports true).floor_sensors = 2 ^ 1 := by
  have hk : (run demoDut 18156).pc.kind = .ticks 20 := by rw [demo_at_t4MoveA.1]; rfl
  have h1 : (run demoDut 18175).pc = .t4MoveA := by
    show (run demoDut (18156 + 19)).pc = _
    rw [for_run demoDut 18156 20 hk demo_at_t4MoveA.2.1 19 (by omega), (forBody_iter _ _ _).1]
    exact demo_at_t4MoveA.1
  have h2 : (run demoDut 18176).pc = .t4WaitA := demo_at_t4WaitA.1
  refine ⟨h1, h2, ?_, ?_, rfl, rfl⟩
  · rw [sampled_clk demoDut 18175 (by rw [h1]; decide), h1]; rfl
  · rw [sampled_clk demoDut 18176 (by rw [h2]; decide), h2]; rfl

/-- C8: a wait loop entered by step `a` is left only after an evaluation that
shows all four outputs low, and only once `door_open` has been seen asserted
after at least `DOOR_OPEN_TIME + 1000` evaluations of the loop, hence after
at least 6001 iterations; if `door_open` is seen on fewer evaluations than
that, the program stays in the loop for ever. -/
theorem wait_loop_exit_condition (d : Dut σ) (W : Phase) (hW : W.kind = .wait) (a : Nat)
    (hpre : (run d a).pc ≠ W) (hin : (run d (a + 1)).pc = W) :
    (∀ k, (∀ j, j < k → (run d (a + 1 + j)).pc = W) → (run d (a + 1 + k)).pc ≠ W →
        allLow (observed d (a + k)) = true ∧
        DOOR_OPEN_TIME + 1000 ≤ openCount d (a + 1) k ∧
        DOOR_OPEN_TIME + 1000 + 1 ≤ k) ∧
      ((∀ k, openCount d (a + 1) k < DOOR_OPEN_TIME + 1000) →
        ∀ j, (run d (a + 1 + j)).pc = W) := by
  have key : ∀ k, (∀ j, j < k → (run d (a + 1 + j)).pc = W) → (run d (a + 1 + k)).pc ≠ W →
      allLow (observed d (a + k)) = true ∧
      DOOR_OPEN_TIME + 1000 ≤ openCount d (a + 1) k ∧
      DOOR_OPEN_TIME + 1000 + 1 ≤ k := by
    intro k hk hout
    cases k with
    | zero => exact absurd hin hout
    | succ k =>
      have hlast := hk k (Nat.lt_succ_self k)
      have hkind : (run d (a + 1 + k)).pc.kind = .wait := by rw [hlast]; exact hW
      have hx : (run d (a + 1 + k + 1)).pc ≠ (run d (a + 1 + k)).pc := by
        rw [hlast]; exact hout
      have hexit := leave_wait d (a + 1 + k) hkind hx
      obtain ⟨hl1, hl2⟩ := wait_leave d (a + 1 + k) hkind hx
      have hcnt := timer_le_count d W hW a k hpre (fun j hj => hk j (by omega))
      have hall : allLow (observed d (a + (k + 1))) = true := by
        have : a + (k + 1) = a + 1 + k := by omega
        rw [this]; exact hexit.1
      have hopen := allLow_door_open _ hexit.1
      have htimer : (run d (a + 1 + k + 1)).door_timer = (run d (a + 1 + k)).door_timer := by
        have hobs : observed d (a + 1 + k) = d.out (waitBody d (run d (a + 1 + k))).dut := by
          simp only [observed]; rw [hl1, exitLoop_dut]
        rw [hobs] at hopen
        have hwb : (waitBody d (run d (a + 1 + k))).door_timer =
            if (d.out (waitBody d (run d (a + 1 + k))).dut).door_open then
              ((run d (a + 1 + k)).door_timer + 1) % U64
            else (run d (a + 1 + k)).door_timer := rfl
        rw [hl1, exitLoop_wait_timer (waitBody d (run d (a + 1 + k))) hkind, hwb, hopen]
        simp
      have h6 := hexit.2.1
      rw [htimer] at h6
      have hle := openCount_le d (a + 1) k
      have hmono := openCount_mono d (a + 1) k
      refine ⟨hall, by omega, by omega⟩
  refine ⟨key, ?_⟩
  intro hfew j
  induction j using Nat.strong_induction_on with
  | _ j ih =>
    by_contra hout
    have := (key j (fun i hi => ih i hi) hout).2.1
    have := hfew j
    omega

/-- Witness for C8: under `demoDut` the first wait loop is entered by step 54
and left after 6002 iterations. -/
theorem wait_loop_exit_condition_witness :
    (run demoDut 54).pc ≠ .t1Wait ∧ (run demoDut (54 + 1)).pc = .t1Wait ∧
      (∀ j, j < 6002 → (run demoDut (54 + 1 + j)).pc = .t1Wait) ∧
      (run demoDut (54 + 1 + 6002)).pc ≠ .t1Wait ∧
      allLow (observed demoDut (54 + 6002)) = true ∧
      DOOR_OPEN_TIME + 1000 ≤ openCount demoDut (54 + 1) 6002 ∧
      DOOR_OPEN_TIME + 1000 + 1 ≤ 6002 := by
  have h0 : (run demoDut 54).pc ≠ .t1Wait := (first_wait_entry demoDut).1
  have h1 : (run demoDut (54 + 1)).pc = .t1Wait := demo_at_t1Wait.1
  have h2 : ∀ j, j < 6002 → (run demoDut (54 + 1 + j)).pc = .t1Wait :=
    fun j hj => (demo_in_t1Wait j hj).1
  have h3 : (run demoDut (54 + 1 + 6002)).pc ≠ .t1Wait := by
    have : (run demoDut (54 + 1 + 6002)).pc = .t2Pulse := demo_at_t2Pulse.1
    rw [this]; decide
  exact ⟨h0, h1, h2, h3, (wait_loop_exit_condition demoDut .t1Wait rfl 54 h0 h1).1 6002 h2 h3⟩

/-- C9: let step `e` enter one of the wait loops of `main`, and let the
controller obey the door timing law while the loop evaluates it: after `a`
evaluations without `door_open` it shows `door_open` on
`2 * DOOR_OPEN_TIME` = 10000 consecutive evaluations, then `door_close` without
`door_open` on `b` evaluations, and all four outputs low on every later one.
Then the program has left the loop after `a + 10000 + b + 1` iterations; the
loop on its own, run from the entry state, returns within that many
iterations. -/
theorem wait_loop_terminates (d : Dut σ) (W : Phase) (hW : W.kind = .wait) (e : Nat)
    (hpre : (run d e).pc ≠ W) (hin : (run d (e + 1)).pc = W) (a b : Nat)
    (hbefore : ∀ j, j < a →
      (d.out (spin d (run d (e + 1)) (j + 1)).dut).door_open = false)
    (hopen : ∀ j, a ≤ j → j < a + 2 * DOOR_OPEN_TIME →
      (d.out (spin d (run d (e + 1)) (j + 1)).dut).door_open = true)
    (hclose : ∀ j, a + 2 * DOOR_OPEN_TIME ≤ j → j < a + 2 * DOOR_OPEN_TIME + b →
      (d.out (spin d (run d (e + 1)) (j + 1)).dut).door_close = true ∧
      (d.out (spin d (run d (e + 1)) (j + 1)).dut).door_open = false)
    (hidle : ∀ j, a + 2 * DOOR_OPEN_TIME + b ≤ j →
      allLow (d.out (spin d (run d (e + 1)) (j + 1)).dut) = true) :
    (run d (e + 1 + (a + 2 * DOOR_OPEN_TIME + b + 1))).pc ≠ W ∧
      (waitLoop d (a + 2 * DOOR_OPEN_TIME + b + 1) (run d (e + 1))).isSome = true := by
  have h0 := wait_entry_timer d e W hW hpre hin
  have hcnt := spinCount_bound d (run d (e + 1)) a (2 * DOOR_OPEN_TIME)
    (a + 2 * DOOR_OPEN_TIME + b) (by
      intro j hj ho
      by_cases h1 : j < a
      · rw [hbefore j h1] at ho; cases ho
      · by_cases h2 : j < a + 2 * DOOR_OPEN_TIME
        · exact ⟨by omega, h2⟩
        · rw [(hclose j (by omega) hj).2] at ho; cases ho)
  have hcount : spinCount d (run d (e + 1)) (a + 2 * DOOR_OPEN_TIME + b) < U64 := by
    simp only [DOOR_OPEN_TIME, U64] at hcnt ⊢
    omega
  have hfalse := spin_settles d (run d (e + 1)) a (2 * DOOR_OPEN_TIME) b h0
    (by simp [DOOR_OPEN_TIME]) hcount hopen hidle
  refine ⟨?_, waitLoop_some d _ _ _ (le_refl _) hfalse⟩
  intro hstill
  have hk : (run d (e + 1)).pc.kind = .wait := by rw [hin]; exact hW
  have hrun := run_eq_spin d (e + 1) (a + 2 * DOOR_OPEN_TIME + b + 1) hk (by
    intro j hj
    rw [hin]
    exact in_loop_between d (e + 1) _ j W hin hstill hj)
  rw [hrun.1, hfalse] at hrun
  exact absurd hrun.2 (by decide)

/-- Witness for C9: `lateDut` enters the first wait loop of `main` by step 54,
is idle on the loop's first two evaluations, holds the door open on the next
10000, closes it on one and is idle afterwards; the loop is left within 10004
iterations. -/
theorem wait_loop_terminates_witness :
    (run lateDut 54).pc ≠ .t1Wait ∧ (run lateDut (54 + 1)).pc = .t1Wait ∧
      (lateDut.out (spin lateDut (run lateDut (54 + 1)) (1 + 1)).dut).door_open = false ∧
      (lateDut.out (spin lateDut (run lateDut (54 + 1)) (2 + 1)).dut).door_open = true ∧
      (lateDut.out (spin lateDut (run lateDut (54 + 1)) (10002 + 1)).dut).door_close = true ∧
      (run lateDut (54 + 1 + (2 + 2 * DOOR_OPEN_TIME + 1 + 1))).pc ≠ .t1Wait ∧
      (waitLoop lateDut (2 + 2 * DOOR_OPEN_TIME + 1 + 1) (run lateDut (54 + 1))).isSome
        = true := by
  have hd : (run lateDut (54 + 1)).dut = 55 := late_at_t1Wait.2.2.1
  refine ⟨(first_wait_entry _).1, (first_wait_entry _).2, ?_, ?_, ?_,
    wait_loop_terminates lateDut .t1Wait rfl 54 (first_wait_entry _).1
      (first_wait_entry _).2 2 1
      (by
        intro j hj
        rw [lateDut_spin_dut, hd]
        simp only [lateDut, decide_eq_false_iff_not]
        omega)
      (by
        intro j h1 h2
        rw [lateDut_spin_dut, hd]
        simp only [lateDut, decide_eq_true_eq, DOOR_OPEN_TIME] at h2 ⊢
        omega)
      (by
        intro j h1 h2
        rw [lateDut_spin_dut, hd]
        simp only [lateDut, decide_eq_true_eq, decide_eq_false_iff_not, DOOR_OPEN_TIME]
          at h1 h2 ⊢
        omega)
      (by
        intro j h1
        rw [lateDut_spin_dut, hd]
        simp only [DOOR_OPEN_TIME] at h1
        simp only [allLow, lateDut, Bool.and_eq_true, beq_iff_eq, decide_eq_false_iff_not]
        refine ⟨⟨⟨trivial, trivial⟩, ?_⟩, ?_⟩ <;> omega)⟩
  · rw [lateDut_spin_dut, hd]; simp [lateDut]
  · rw [lateDut_spin_dut, hd]; simp [lateDut]
  · rw [lateDut_spin_dut, hd]; simp [lateDut]

/-- C10, as the code has it: while `main` runs, after `n` evaluations `clk` is
`n mod 2` and the 64-bit `sim_time` is `5 * n` modulo 2^64 (so `5 * n` itself
as long as that is below 2^64); in every state of the run, whenever `clk` is
high `sim_time` is odd and the print condition is false, an iteration of a wait
loop leaves the output as it was, and no status row has been written. -/
theorem clock_lock_step (d : Dut σ) (n : Nat) :
    (evaluated d n →
        (run d n).sim_time = (5 * n) % U64 ∧
        (5 * n < U64 → (run d n).sim_time = 5 * n) ∧
        (run d n).inp.clk = decide (n % 2 = 1)) ∧
      ((run d n).inp.clk = true → (run d n).sim_time % 2 = 1) ∧
      printCond (run d n).inp.clk (run d n).sim_time = false ∧
      (waitBody d (run d n)).log = (run d n).log ∧
      (∀ l ∈ (run d n).log, l.isStatus = false) := by
  have h2 := parity_at d n
  have h3 : (run d n).inp.clk = false → (run d n).sim_time % 2 = 0 := by
    intro hc
    have := h2.1
    rw [hc] at this
    simp at this
    exact this
  refine ⟨?_, h2.1.1, print_guard_false _ _ h2.1.1, waitBody_log d _ h3, h2.2⟩
  intro h
  have h1 := clock_at d n h
  refine ⟨h1.2, ?_, h1.1⟩
  intro hlt
  rw [h1.2, Nat.mod_eq_of_lt hlt]

/-- Witness for C10: the first seven evaluations under `stuckDut`. -/
theorem clock_lock_step_witness :
    evaluated stuckDut 7 ∧ (run stuckDut 7).sim_time = 35 ∧ (run stuckDut 7).inp.clk = true ∧
      printCond (run stuckDut 7).inp.clk (run stuckDut 7).sim_time = false := by
  have h := clock_lock_step stuckDut 7
  have h1 := h.1 (stuck_evaluated 7)
  exact ⟨stuck_evaluated 7, h1.2.1 (by simp [U64]), by simpa using h1.2.2, h.2.2.1⟩

/-- Counterexample to C10 as stated: `stuckDut` never lets the first wait loop
exit; after 3689348814741910324 evaluations `sim_time` has wrapped round to 4,
and one evaluation later `clk` is high while `sim_time` is 9, which is not a
multiple of 5. -/
theorem sim_time_wraps :
    evaluated stuckDut 3689348814741910325 ∧
      (run stuckDut 3689348814741910324).sim_time = 4 ∧
      (run stuckDut 3689348814741910324).sim_time ≠ 5 * 3689348814741910324 ∧
      (run stuckDut 3689348814741910325).inp.clk = true ∧
      (run stuckDut 3689348814741910325).sim_time = 9 ∧
      (run stuckDut 3689348814741910325).sim_time % 5 ≠ 0 := by
  have h1 := clock_at stuckDut 3689348814741910324 (stuck_evaluated _)
  have h2 := clock_at stuckDut 3689348814741910325 (stuck_evaluated _)
  have e1 : (run stuckDut 3689348814741910324).sim_time = 4 := by
    rw [h1.2]; simp [U64]
  have e2 : (run stuckDut 3689348814741910325).sim_time = 9 := by
    rw [h2.2]; simp [U64]
  refine ⟨stuck_evaluated _, e1, ?_, ?_, e2, ?_⟩
  · rw [e1]; decide
  · rw [h2.1]; decide
  · rw [e2]; decide

end Elevator
